import Mathlib

/-!
goeasyconf: filling a configuration struct from environment variables

A shallow embedding of `goeasyconf.go` (`FillConfig`, `populateStruct`,
`setFieldValue`) together with the parts of the Go standard library the code
calls (`os.Getenv`, `strings.Split`, `strconv.ParseInt`, `strconv.ParseUint`,
`strconv.ParseBool`, the setters of `reflect.Value`).

Conventions of the embedding:

* a function that writes through a `reflect.Value` returns the value the
  variable holds when the function returns, paired with the returned `error`
  (`none` is Go's `nil`);
* machine integers are `Nat` / `Int` with explicit reduction modulo `2 ^ 64`
  where the Go code computes in `uint64` / `int64`;
* Go strings are modelled by `String`; the byte loops of `strconv` are run
  over the characters, which agrees with the byte loop because every byte of
  a multi-byte character is at least `0x80` and falls in the same `default`
  branch as the character does;
* `strconv.ParseFloat` is a parameter `pf` of the development: its result is
  the stored floating-point value, given by its bit pattern.
-/

namespace Goeasyconf

/-! ## Errors -/

/-- The sentinel errors of `strconv` (`ErrSyntax`, `ErrRange`) and the error
`invalid bit size n` that `bitSizeError` wraps. -/
inductive StrconvErr where
  | ErrSyntax
  | ErrRange
  | ErrBitSize (n : Nat)
deriving DecidableEq, Repr

/-- The Go error values the package can return: `errors.New(s)` and
`*strconv.NumError`. -/
inductive GoError where
  | errorString (s : String)
  | NumError (Func : String) (Num : String) (Err : StrconvErr)
deriving DecidableEq, Repr

/-- Go `errors.New`. -/
def errorsNew (s : String) : GoError := GoError.errorString s

/-- Go `strconv.syntaxError(fn, str)`. -/
def syntaxError (fn str : String) : GoError := GoError.NumError fn str StrconvErr.ErrSyntax

/-- Go `strconv.rangeError(fn, str)`. -/
def rangeError (fn str : String) : GoError := GoError.NumError fn str StrconvErr.ErrRange

/-- Go `strconv.bitSizeError(fn, str, bitSize)`. -/
def bitSizeError (fn str : String) (bitSize : Nat) : GoError :=
  GoError.NumError fn str (StrconvErr.ErrBitSize bitSize)

/-! ## Machine integers -/

/-- The constant `strconv.IntSize`, the size in bits of `int` and `uint`
(64-bit platform). -/
def IntSize : Nat := 64

/-- Conversion to `uint64`: reduction modulo `2 ^ 64`. -/
def uint64 (n : Nat) : Nat := n % 2 ^ 64

/-- Conversion to `int64`: two's complement wrap-around. -/
def int64 (x : Int) : Int := (x + 2 ^ 63) % 2 ^ 64 - 2 ^ 63

/-- The constant `math.MaxUint64` (`1<<64 - 1`). -/
def maxUint64 : Nat := 2 ^ 64 - 1

/-! ## strconv -/

/-- Go `strconv.lower(c)`: `c | ('x' - 'X')`, on the byte value. -/
def lower (c : Nat) : Nat := c ||| 32

/-- The `switch` at the head of the loop of `ParseUint` (with `base0` false):
the digit value of a byte, `none` for the `default` branch. -/
def digitVal (c : Char) : Option Nat :=
  if 48 ≤ c.toNat ∧ c.toNat ≤ 57 then some (c.toNat - 48)
  else if 97 ≤ lower c.toNat ∧ lower c.toNat ≤ 122 then some (lower c.toNat - 97 + 10)
  else none

/-- The loop `for _, c := range []byte(s)` of `strconv.ParseUint` for base 10,
from the accumulator `n`; returns the value and the error kind that the
function returns when the loop ends or aborts. -/
def parseUintLoop (maxVal : Nat) : List Char → Nat → Nat × Option StrconvErr
  | [], n => (n, none)
  | c :: cs, n =>
    match digitVal c with
    | none => (0, some StrconvErr.ErrSyntax)
    | some d =>
      if d ≥ 10 then (0, some StrconvErr.ErrSyntax)
      else if n ≥ maxUint64 / 10 + 1 then (maxVal, some StrconvErr.ErrRange)
      else
        let n10 := uint64 (n * 10)
        let n1 := uint64 (n10 + d)
        if n1 < n10 ∨ n1 > maxVal then (maxVal, some StrconvErr.ErrRange)
        else parseUintLoop maxVal cs n1

/-- Go `strconv.ParseUint(s, 10, bitSize)`: the returned `uint64` and error. -/
def ParseUint (s : String) (bitSize : Nat) : Nat × Option GoError :=
  if s = "" then (0, some (syntaxError "ParseUint" s))
  else if bitSize > 64 then (0, some (bitSizeError "ParseUint" s bitSize))
  else
    let bitSize := if bitSize = 0 then IntSize else bitSize
    let maxVal := uint64 (uint64 (2 ^ bitSize) + 2 ^ 64 - 1)
    match parseUintLoop maxVal s.data 0 with
    | (n, some e) => (n, some (GoError.NumError "ParseUint" s e))
    | (n, none) => (n, none)

/-- The part of `strconv.ParseInt` after the call of `ParseUint` returned `un`
without an error other than `ErrRange`: the range check against the cutoff
and the sign. -/
def parseIntRange (s0 : String) (neg : Bool) (un : Nat) (bitSize : Nat) : Int × Option GoError :=
  let bitSize := if bitSize = 0 then IntSize else bitSize
  let cutoff := uint64 (2 ^ (bitSize - 1))
  if !neg && decide (un ≥ cutoff) then (int64 ((cutoff : Int) - 1), some (rangeError "ParseInt" s0))
  else if neg && decide (un > cutoff) then (int64 (-(int64 cutoff)), some (rangeError "ParseInt" s0))
  else
    let n := int64 un
    (if neg then int64 (-n) else n, none)

/-- The step `Pick off leading sign` of `strconv.ParseInt` on a non-empty
string: `neg` and the rest of the string. -/
def pickSign (s : String) : Bool × String :=
  match s.data with
  | '+' :: r => (false, String.mk r)
  | '-' :: r => (true, String.mk r)
  | _ => (false, s)

/-- Go `strconv.ParseInt(s, 10, bitSize)`: the returned `int64` and error. The
error of `ParseUint` is always a `*NumError` (the Go code asserts so). -/
def ParseInt (s : String) (bitSize : Nat) : Int × Option GoError :=
  if s = "" then (0, some (syntaxError "ParseInt" s))
  else
    let s0 := s
    let signed := pickSign s
    match ParseUint signed.2 bitSize with
    | (un, some (GoError.NumError _ _ e)) =>
      if e ≠ StrconvErr.ErrRange then (0, some (GoError.NumError "ParseInt" s0 e))
      else parseIntRange s0 signed.1 un bitSize
    | (_, some (GoError.errorString m)) => (0, some (GoError.errorString m))
    | (un, none) => parseIntRange s0 signed.1 un bitSize

/-- Go `strconv.ParseBool(str)`. -/
def ParseBool (str : String) : Bool × Option GoError :=
  if str = "1" ∨ str = "t" ∨ str = "T" ∨ str = "TRUE" ∨ str = "true" ∨ str = "True" then
    (true, none)
  else if str = "0" ∨ str = "f" ∨ str = "F" ∨ str = "FALSE" ∨ str = "false" ∨ str = "False" then
    (false, none)
  else (false, some (syntaxError "ParseBool" str))

/-- The float parser the development is parametric in: the value (as a bit
pattern) and the error kind of `strconv.ParseFloat(s, bitSize)`. -/
abbrev FloatParser := String → Nat → Nat × Option StrconvErr

/-- Go `strconv.ParseFloat(s, bitSize)` over the parameter `pf`: its errors are
`*NumError` values with `Func = "ParseFloat"` and `Num = s`. -/
def ParseFloat (pf : FloatParser) (s : String) (bitSize : Nat) : Nat × Option GoError :=
  match pf s bitSize with
  | (f, some e) => (f, some (GoError.NumError "ParseFloat" s e))
  | (f, none) => (f, none)

/-! ## strings and os -/

/-- The segments of a byte sequence between the occurrences of `sep`. -/
def splitChars (sep : Char) : List Char → List (List Char)
  | [] => [[]]
  | c :: cs =>
    if c = sep then [] :: splitChars sep cs
    else
      match splitChars sep cs with
      | seg :: segs => (c :: seg) :: segs
      | [] => [[c]]

/-- Go `strings.Split(s, sep)` for a one-byte separator: all substrings of `s`
between the separators, in order. -/
def Split (s : String) (sep : Char) : List String := (splitChars sep s.data).map String.mk

/-- Go `strings.Join(elems, sep)` for a one-byte separator. -/
def Join (elems : List String) (sep : Char) : String :=
  String.mk (List.intercalate [sep] (elems.map String.data))

/-- The process environment: the value of each variable that is set. -/
abbrev Env := String → Option String

/-- The environment holding exactly the listed variables (the first entry of a
name counts). -/
def Env.ofList (l : List (String × String)) : Env := fun k => l.lookup k

/-- Go `os.Getenv(key)`: the value of the variable, `""` when it is not set; the
lookup of the empty name finds nothing (`syscall.Getenv`). -/
def Getenv (env : Env) (key : String) : String :=
  if key = "" then "" else (env key).getD ""

/-! ## The data model: types, values and struct instances -/

/-- The signed integer kinds of `reflect` (`Int`, `Int8`, ..., `Int64`). -/
inductive IntKind where
  | Int | Int8 | Int16 | Int32 | Int64
deriving DecidableEq, Repr

/-- The unsigned integer kinds the code handles (`Uint`, `Uint8`, ..., `Uint64`;
`Uintptr` is not among them). -/
inductive UintKind where
  | Uint | Uint8 | Uint16 | Uint32 | Uint64
deriving DecidableEq, Repr

/-- The floating-point kinds. -/
inductive FloatKind where
  | Float32 | Float64
deriving DecidableEq, Repr

/-- The kinds that are neither handled by a `case` of `setFieldValue` nor
`Struct`. -/
inductive OtherKind where
  | Uintptr | Complex64 | Complex128 | Array | Chan | Func | Interface | Map | Ptr
  | UnsafePointer
deriving DecidableEq, Repr

/-- The method `Type.Bits()` of a signed integer type. -/
def IntKind.Bits : IntKind → Nat
  | .Int => IntSize
  | .Int8 => 8
  | .Int16 => 16
  | .Int32 => 32
  | .Int64 => 64

/-- The method `Type.Bits()` of an unsigned integer type. -/
def UintKind.Bits : UintKind → Nat
  | .Uint => IntSize
  | .Uint8 => 8
  | .Uint16 => 16
  | .Uint32 => 32
  | .Uint64 => 64

/-- The method `Type.Bits()` of a floating-point type. -/
def FloatKind.Bits : FloatKind → Nat
  | .Float32 => 32
  | .Float64 => 64

/-- The method `Kind.String()` on the kinds of `OtherKind`. -/
def OtherKind.String : OtherKind → String
  | .Uintptr => "uintptr"
  | .Complex64 => "complex64"
  | .Complex128 => "complex128"
  | .Array => "array"
  | .Chan => "chan"
  | .Func => "func"
  | .Interface => "interface"
  | .Map => "map"
  | .Ptr => "ptr"
  | .UnsafePointer => "unsafe.Pointer"

/-- A Go type, as far as `setFieldValue` can tell types apart: its kind, its
size in bits and, for a slice, its element type. -/
inductive GoType where
  | string
  | int (k : IntKind)
  | uint (k : UintKind)
  | bool
  | float (k : FloatKind)
  | slice (elem : GoType)
  | struct
  | other (k : OtherKind)
deriving DecidableEq, Repr

/-- The test `Kind() == reflect.Struct`. -/
def GoType.isStruct : GoType → Bool
  | .struct => true
  | _ => false

/-- The contents of a variable that is not a struct field of the instance:
`other` stands for the values of the kinds that the code neither reads nor
writes (struct elements of a slice, maps, pointers, ...). -/
inductive Data where
  | string (s : String)
  | int (i : Int)
  | uint (n : Nat)
  | bool (b : Bool)
  | float (bits : Nat)
  | slice (xs : List Data)
  | other (id : Nat)
deriving Repr

/-- The zero value of a type, the contents of a fresh element made by
`reflect.MakeSlice`. -/
def zero : GoType → Data
  | .string => Data.string ""
  | .int _ => Data.int 0
  | .uint _ => Data.uint 0
  | .bool => Data.bool false
  | .float _ => Data.float 0
  | .slice _ => Data.slice []
  | .struct => Data.other 0
  | .other _ => Data.other 0

/-- The struct tag of a field, by what the code reads of it: `Tag.Get("env")`
and `Tag.Get("required")` (`""` when the key is not in the tag). -/
structure StructTag where
  env : String
  required : String
deriving DecidableEq, Repr

/-- The part of `reflect.StructField` the code uses. Fields are settable
(exported): the setters of `reflect` do not return for the others. -/
structure StructField where
  Name : String
  Tag : StructTag
deriving DecidableEq, Repr

/-- A struct value with its type: the fields in declaration order. A field
whose kind is `Struct` is `nested` and holds a struct value in turn; any other
field is a `leaf` with its type, which is not a struct type (`h`), and its
contents. -/
inductive Fields where
  | nil
  | leaf (f : StructField) (typ : GoType) (h : typ.isStruct = false) (field : Data)
      (rest : Fields)
  | nested (f : StructField) (fs : Fields) (rest : Fields)

/-! ## setFieldValue -/

/-- Go `Value.SetInt(x)` on a field of `bits` bits: the stored value is `x`
truncated to the width of the field. -/
def SetInt (bits : Nat) (x : Int) : Data :=
  Data.int ((x + 2 ^ (bits - 1)) % 2 ^ bits - 2 ^ (bits - 1))

/-- Go `Value.SetUint(x)` on a field of `bits` bits. -/
def SetUint (bits : Nat) (x : Nat) : Data := Data.uint (x % 2 ^ bits)

/-- The loop `for i, val := range values` of the `reflect.Slice` case, over
the elements of the fresh slice: `set` is `setFieldValue` at the element
type. Returns the slice as the loop leaves it and the error, if any. -/
def setElems (set : Data → String → Data × Option GoError) :
    List Data → List String → List Data × Option GoError
  | elem :: elems, val :: vals =>
    match set elem val with
    | (elem1, some err) => (elem1 :: elems, some err)
    | (elem1, none) =>
      match setElems set elems vals with
      | (elems1, r) => (elem1 :: elems1, r)
  | elems, _ => (elems, none)

/-- The function `setFieldValue(field, envValue)` for a field of type `typ` holding
`field`: the contents of the field on return and the returned error. -/
def setFieldValue (pf : FloatParser) : GoType → Data → String → Data × Option GoError
  | .string, _, envValue => (Data.string envValue, none)
  | .int k, field, envValue =>
    match ParseInt envValue k.Bits with
    | (_, some err) => (field, some err)
    | (intVal, none) => (SetInt k.Bits intVal, none)
  | .uint k, field, envValue =>
    match ParseUint envValue k.Bits with
    | (_, some err) => (field, some err)
    | (uintVal, none) => (SetUint k.Bits uintVal, none)
  | .bool, field, envValue =>
    match ParseBool envValue with
    | (_, some err) => (field, some err)
    | (boolVal, none) => (Data.bool boolVal, none)
  | .float k, field, envValue =>
    match ParseFloat pf envValue k.Bits with
    | (_, some err) => (field, some err)
    | (floatVal, none) => (Data.float floatVal, none)
  | .slice elem, field, envValue =>
    let values := Split envValue ','
    let slice := List.replicate values.length (zero elem)
    match setElems (setFieldValue pf elem) slice values with
    | (_, some err) => (field, some err)
    | (slice1, none) => (Data.slice slice1, none)
  | .struct, field, _ => (field, some (errorsNew ("unsupported field type: " ++ "struct")))
  | .other k, field, _ => (field, some (errorsNew ("unsupported field type: " ++ k.String)))

/-! ## populateStruct and FillConfig -/

/-- The function `populateStruct(v)`: the struct as the function leaves it
and the returned error. -/
def populateStruct (env : Env) (pf : FloatParser) : Fields → Fields × Option GoError
  | .nil => (Fields.nil, none)
  | .nested f fs rest =>
    match populateStruct env pf fs with
    | (fs1, some err) => (Fields.nested f fs1 rest, some err)
    | (fs1, none) =>
      match populateStruct env pf rest with
      | (rest1, r) => (Fields.nested f fs1 rest1, r)
  | .leaf f typ h field rest =>
    let envKey := f.Tag.env
    let required := f.Tag.required == "true"
    let envValue := Getenv env envKey
    if required && envValue == "" then
      (Fields.leaf f typ h field rest,
        some (errorsNew ("missing required environment variable: " ++ envKey)))
    else if envValue != "" then
      match setFieldValue pf typ field envValue with
      | (field1, some err) => (Fields.leaf f typ h field1 rest, some err)
      | (field1, none) =>
        match populateStruct env pf rest with
        | (rest1, r) => (Fields.leaf f typ h field1 rest1, r)
    else
      match populateStruct env pf rest with
      | (rest1, r) => (Fields.leaf f typ h field rest1, r)

/-- The argument `cfg interface{}` of `FillConfig`, by what `reflect.ValueOf`
reports of it. -/
inductive Cfg where
  /-- The nil interface: `reflect.ValueOf` gives the zero `Value`. -/
  | untypedNil
  /-- A struct passed by value. -/
  | structValue (v : Fields)
  /-- Any other value that is not a pointer. -/
  | otherValue (typ : GoType) (d : Data)
  /-- A nil pointer of any pointer type. -/
  | nilPtr
  /-- A non-nil pointer to a struct. -/
  | ptrToStruct (v : Fields)
  /-- A non-nil pointer to a variable that is not a struct. -/
  | ptrToOther (typ : GoType) (d : Data)

/-- The function `FillConfig(cfg)`: the argument (with what it points to) on
return and the returned error. The test
`v.Kind() != reflect.Ptr || v.Elem().Kind() != reflect.Struct` fails exactly
for a non-nil pointer to a struct. -/
def FillConfig (env : Env) (pf : FloatParser) : Cfg → Cfg × Option GoError
  | .ptrToStruct v =>
    match populateStruct env pf v with
    | (v1, r) => (Cfg.ptrToStruct v1, r)
  | cfg => (cfg, some (errorsNew "cfg must be a pointer to a struct"))


/-! ## Decimal literals -/

/-- A decimal digit, by its byte value. -/
def isDigit (c : Char) : Prop := 48 ≤ c.toNat ∧ c.toNat ≤ 57

instance (c : Char) : Decidable (isDigit c) := by unfold isDigit; infer_instance

/-- The number a sequence of decimal digits denotes, most significant digit
first, continuing from the value `n` of the digits read so far. -/
def decVal (cs : List Char) (n : Nat) : Nat := cs.foldl (fun a c => a * 10 + (c.toNat - 48)) n

/-- The value of an unsigned base-10 literal: one or more decimal digits. -/
def natLiteral? (cs : List Char) : Option Nat :=
  if cs ≠ [] ∧ ∀ c ∈ cs, isDigit c then some (decVal cs 0) else none

/-- The value of a base-10 integer literal: an optional sign followed by one
or more decimal digits; `none` for any other string. The value is unbounded. -/
def intLiteral? (s : String) : Option Int :=
  match s.data with
  | '+' :: r => (natLiteral? r).map Int.ofNat
  | '-' :: r => (natLiteral? r).map (fun n => -(Int.ofNat n))
  | r => (natLiteral? r).map Int.ofNat

/-- The base-10 rendering of a natural number (`strconv.FormatUint(n, 10)`):
its decimal digits, most significant first, without leading zeros. -/
def FormatUint (n : Nat) : String := String.mk (Nat.toDigits 10 n)

/-- The base-10 rendering of an integer (`strconv.FormatInt(i, 10)`): a minus
sign before the digits of a negative number. -/
def FormatInt (i : Int) : String :=
  if i < 0 then String.mk ('-' :: Nat.toDigits 10 (-i).toNat) else FormatUint i.toNat

/-! ## The walk, field by field -/

/-- A field of an instance that is not a struct, with its type and contents. -/
structure Leaf where
  f : StructField
  typ : GoType
  field : Data

/-- The non-struct fields of an instance in depth-first declaration order: the
fields of a nested struct stand at the position of the nesting field. -/
def Fields.leaves : Fields → List Leaf
  | .nil => []
  | .leaf f typ _ field rest => ⟨f, typ, field⟩ :: rest.leaves
  | .nested _ fs rest => fs.leaves ++ rest.leaves

/-- The body of the loop of `populateStruct` for one field that is not a
struct (from `envValue := os.Getenv(envKey)` on): the contents of the field
afterwards and the error the iteration returns, `none` when the loop goes on. -/
def processField (env : Env) (pf : FloatParser) (f : StructField) (typ : GoType)
    (field : Data) : Data × Option GoError :=
  let envKey := f.Tag.env
  let required := f.Tag.required == "true"
  let envValue := Getenv env envKey
  if required && envValue == "" then
    (field, some (errorsNew ("missing required environment variable: " ++ envKey)))
  else if envValue != "" then setFieldValue pf typ field envValue
  else (field, none)

/-- The fields of a list processed in order until the first error. -/
def walk (env : Env) (pf : FloatParser) : List Leaf → List Leaf × Option GoError
  | [] => ([], none)
  | l :: ls =>
    match processField env pf l.f l.typ l.field with
    | (d, some err) => (⟨l.f, l.typ, d⟩ :: ls, some err)
    | (d, none) =>
      match walk env pf ls with
      | (ls1, r) => (⟨l.f, l.typ, d⟩ :: ls1, r)

/-- The relation between a field before and after an iteration of the loop
that returned no error. -/
def Processed (env : Env) (pf : FloatParser) (a b : Leaf) : Prop :=
  b.f = a.f ∧ b.typ = a.typ ∧ processField env pf a.f a.typ a.field = (b.field, none)

/-- Equality of two strings up to the case of the ASCII letters. -/
def EqualFold (s t : String) : Prop := s.data.map Char.toLower = t.data.map Char.toLower

instance (s t : String) : Decidable (EqualFold s t) := by unfold EqualFold; infer_instance

/-- The `strconv` function that parses the scalars of a type (for a slice,
those of its elements); `none` for strings and for the types `setFieldValue`
does not handle. -/
def GoType.parser : GoType → Option String
  | .string => none
  | .int _ => some "ParseInt"
  | .uint _ => some "ParseUint"
  | .bool => some "ParseBool"
  | .float _ => some "ParseFloat"
  | .slice elem => elem.parser
  | .struct => none
  | .other _ => none

/-- The test `Kind() == reflect.Slice`. -/
def GoType.isSlice : GoType → Bool
  | .slice _ => true
  | _ => false

/-! ## Example inputs -/

/-- A float parser that rejects every string; the example shapes have no
floating-point field. -/
def rejectFloats : FloatParser := fun _ _ => (0, some StrconvErr.ErrSyntax)

/-- An instance of the shape
`{Name string required "NAME"; Port int "PORT"; Tags []string "TAGS"}`. -/
def nameportTags (name port tags : Data) : Fields :=
  Fields.leaf ⟨"Name", ⟨"NAME", "true"⟩⟩ GoType.string rfl name
    (Fields.leaf ⟨"Port", ⟨"PORT", ""⟩⟩ (GoType.int IntKind.Int) rfl port
      (Fields.leaf ⟨"Tags", ⟨"TAGS", ""⟩⟩ (GoType.slice GoType.string) rfl tags Fields.nil))

/-- An instance of the shape `{Port int "PORT"; Name string required "NAME"}`:
the required field comes second. -/
def portName (port name : Data) : Fields :=
  Fields.leaf ⟨"Port", ⟨"PORT", ""⟩⟩ (GoType.int IntKind.Int) rfl port
    (Fields.leaf ⟨"Name", ⟨"NAME", "true"⟩⟩ GoType.string rfl name Fields.nil)

/-- An instance of the shape `{Count int64 "COUNT"}`. -/
def countOnly (count : Data) : Fields :=
  Fields.leaf ⟨"Count", ⟨"COUNT", ""⟩⟩ (GoType.int IntKind.Int64) rfl count Fields.nil

/-- An instance of the shape `{Port int "PORT"}`. -/
def portOnly (port : Data) : Fields :=
  Fields.leaf ⟨"Port", ⟨"PORT", ""⟩⟩ (GoType.int IntKind.Int) rfl port Fields.nil

/-- An instance of the shape `{Ports []int "PORTS"}`. -/
def portsOnly (ports : Data) : Fields :=
  Fields.leaf ⟨"Ports", ⟨"PORTS", ""⟩⟩ (GoType.slice (GoType.int IntKind.Int)) rfl ports
    Fields.nil

/-- An instance of a shape whose only field is the nested record
`Inner{X int "X"}`; the nesting field itself is tagged `env:"INNER"` and
`required:"true"`. -/
def withInner (x : Data) : Fields :=
  Fields.nested ⟨"Inner", ⟨"INNER", "true"⟩⟩
    (Fields.leaf ⟨"X", ⟨"X", ""⟩⟩ (GoType.int IntKind.Int) rfl x Fields.nil) Fields.nil

/-- The kind that the `default` case of `setFieldValue` reports for a type:
the kind of the type itself if no `case` handles it, for a slice the one
reported for its element type; `none` when every level is handled. -/
def GoType.unsupportedKind : GoType → Option String
  | .string => none
  | .int _ => none
  | .uint _ => none
  | .bool => none
  | .float _ => none
  | .slice elem => elem.unsupportedKind
  | .struct => some "struct"
  | .other k => some k.String

/-- An instance of the shape `{Grid [][]int "GRID"}`. -/
def gridOnly (grid : Data) : Fields :=
  Fields.leaf ⟨"Grid", ⟨"GRID", ""⟩⟩ (GoType.slice (GoType.slice (GoType.int IntKind.Int))) rfl
    grid Fields.nil

/-- The environment after `os.Setenv(key, value)` (for `some value`) or
`os.Unsetenv(key)` (for `none`). -/
def Env.set (env : Env) (key : String) (value : Option String) : Env :=
  fun k => if k = key then value else env k

/-! ## The conversion of a string, stated apart from the code -/

/-- The values of a list of strings under a conversion `f`, in order; `none`
when the conversion of one of them fails. -/
def specCoerceAll (f : String → Option Data) : List String → Option (List Data)
  | [] => some []
  | s :: ss =>
    match f s, specCoerceAll f ss with
    | some v, some vs => some (v :: vs)
    | _, _ => none

/-- The value a string denotes at a type, stated without the parsers and
setters of the code; `none` when the string denotes no value of the type.
A string is the string itself. An integer is the value of the base-10 literal
(an optional sign and digits for a signed type, digits only for an unsigned
one) when that value is in the range of the width of the type. A boolean is
one of the twelve strings of the boolean vocabulary. A float is what the float
parser accepts. A sequence is the sequence of the values of the segments
between the commas, and has a value only when every segment has one. Other
types have no values that a string denotes. -/
def specCoerce (pf : FloatParser) : GoType → String → Option Data
  | .string, raw => some (Data.string raw)
  | .int k, raw =>
    match intLiteral? raw with
    | some v =>
      if -(2 ^ (k.Bits - 1) : Int) ≤ v ∧ v ≤ 2 ^ (k.Bits - 1) - 1 then some (Data.int v) else none
    | none => none
  | .uint k, raw =>
    match natLiteral? raw.data with
    | some n => if n ≤ 2 ^ k.Bits - 1 then some (Data.uint n) else none
    | none => none
  | .bool, raw =>
    if raw ∈ ["1", "t", "T", "TRUE", "true", "True"] then some (Data.bool true)
    else if raw ∈ ["0", "f", "F", "FALSE", "false", "False"] then some (Data.bool false)
    else none
  | .float k, raw =>
    match pf raw k.Bits with
    | (f, none) => some (Data.float f)
    | (_, some _) => none
  | .slice elem, raw => (specCoerceAll (specCoerce pf elem) (Split raw ',')).map Data.slice
  | .struct, _ => none
  | .other _, _ => none

/-- The shape of the error for a string `num` that does not convert at a type:
the `*strconv.NumError` of the parser of the scalars of the type with `num` as
its `Num`, or, for a type with an unhandled kind, the error naming that
kind. -/
def ConversionError (typ : GoType) (num : String) (e : GoError) : Prop :=
  (∃ fn k, typ.parser = some fn ∧ e = GoError.NumError fn num k) ∨
    (∃ kind, typ.unsupportedKind = some kind ∧
      e = errorsNew ("unsupported field type: " ++ kind))

/-- The environment of `TestFillConfig` in `goeasyconf_test.go`. -/
def testEnv : Env :=
  Env.ofList [("STRING_VALUE", "test_string"), ("INT_VALUE", "42"), ("UINT_VALUE", "100"),
    ("BOOL_VALUE", "true"), ("FLOAT_VALUE", "3.14"), ("STRING_SLICE", "apple,banana,orange"),
    ("INT_SLICE", "1,2,3"), ("NESTED_INT", "99"), ("NESTED_BOOL", "false"),
    ("NESTED_SLICE", "10,20,30"), ("NESTED_STR", "nested_test")]

/-- A float parser that knows the one literal of the test: `3.14` is the
`float64` with bit pattern `0x40091EB851EB851F`. -/
def testFloats : FloatParser :=
  fun s _ => if s = "3.14" then (0x40091EB851EB851F, none) else (0, some StrconvErr.ErrSyntax)

/-- An instance of the struct `Config` of `goeasyconf_test.go`, with the
nested `NestedConfig`. -/
def testConfig (str int uint bool float strs ints nInt nBool nInts nStr : Data) : Fields :=
  Fields.leaf ⟨"StringValue", ⟨"STRING_VALUE", "true"⟩⟩ GoType.string rfl str
    (Fields.leaf ⟨"IntValue", ⟨"INT_VALUE", ""⟩⟩ (GoType.int IntKind.Int) rfl int
      (Fields.leaf ⟨"UintValue", ⟨"UINT_VALUE", ""⟩⟩ (GoType.uint UintKind.Uint) rfl uint
        (Fields.leaf ⟨"BoolValue", ⟨"BOOL_VALUE", ""⟩⟩ GoType.bool rfl bool
          (Fields.leaf ⟨"FloatValue", ⟨"FLOAT_VALUE", ""⟩⟩ (GoType.float FloatKind.Float64) rfl
            float
            (Fields.leaf ⟨"StringSlice", ⟨"STRING_SLICE", ""⟩⟩ (GoType.slice GoType.string) rfl
              strs
              (Fields.leaf ⟨"IntSlice", ⟨"INT_SLICE", ""⟩⟩
                (GoType.slice (GoType.int IntKind.Int)) rfl ints
                (Fields.nested ⟨"NestedConfig", ⟨"", ""⟩⟩
                  (Fields.leaf ⟨"NestedInt", ⟨"NESTED_INT", ""⟩⟩ (GoType.int IntKind.Int) rfl
                    nInt
                    (Fields.leaf ⟨"NestedBool", ⟨"NESTED_BOOL", ""⟩⟩ GoType.bool rfl nBool
                      (Fields.leaf ⟨"NestedSlice", ⟨"NESTED_SLICE", ""⟩⟩
                        (GoType.slice (GoType.int IntKind.Int)) rfl nInts
                        (Fields.leaf ⟨"NestedStr", ⟨"NESTED_STR", ""⟩⟩ GoType.string rfl nStr
                          Fields.nil))))
                  Fields.nil)))))))

/-- The zero value `Config{}` the test starts from. -/
def testConfigZero : Fields :=
  testConfig (Data.string "") (Data.int 0) (Data.uint 0) (Data.bool false) (Data.float 0)
    (Data.slice []) (Data.slice []) (Data.int 0) (Data.bool false) (Data.slice [])
    (Data.string "")

/-- The value `expectedCfg` of the test. -/
def testConfigExpected : Fields :=
  testConfig (Data.string "test_string") (Data.int 42) (Data.uint 100) (Data.bool true)
    (Data.float 0x40091EB851EB851F)
    (Data.slice [Data.string "apple", Data.string "banana", Data.string "orange"])
    (Data.slice [Data.int 1, Data.int 2, Data.int 3]) (Data.int 99) (Data.bool false)
    (Data.slice [Data.int 10, Data.int 20, Data.int 30]) (Data.string "nested_test")

/-! ## Lemmas on strconv -/

theorem digitVal_lt_ten (c : Char) (d : Nat) (h : digitVal c = some d) (hd : d < 10) :
    isDigit c ∧ d = c.toNat - 48 := by
  unfold digitVal at h
  split at h
  · rename_i hc
    simp only [Option.some.injEq] at h
    exact ⟨hc, h.symm⟩
  · split at h
    · simp only [Option.some.injEq] at h
      omega
    · simp at h

theorem digitVal_of_isDigit (c : Char) (h : isDigit c) : digitVal c = some (c.toNat - 48) := by
  unfold digitVal
  exact if_pos h

theorem decVal_cons (c : Char) (cs : List Char) (n : Nat) :
    decVal (c :: cs) n = decVal cs (n * 10 + (c.toNat - 48)) := rfl

theorem le_decVal (cs : List Char) : ∀ n, n ≤ decVal cs n := by
  induction cs with
  | nil => intro n; exact Nat.le_refl n
  | cons c cs ih =>
    intro n
    rw [decVal_cons]
    have := ih (n * 10 + (c.toNat - 48))
    omega

theorem parseUintLoop_ok (maxVal : Nat) (hmax : maxVal ≤ 2 ^ 64 - 1) (cs : List Char) :
    ∀ n, (∀ c ∈ cs, isDigit c) → decVal cs n ≤ maxVal →
      parseUintLoop maxVal cs n = (decVal cs n, none) := by
  induction cs with
  | nil => intro n _ _; rfl
  | cons c cs ih =>
    intro n hall hle
    have hc : isDigit c := hall c (List.mem_cons_self c cs)
    have hrest : ∀ x ∈ cs, isDigit x := fun x hx => hall x (List.mem_cons_of_mem c hx)
    rw [decVal_cons] at hle
    have hmono := le_decVal cs (n * 10 + (c.toNat - 48))
    unfold isDigit at hc
    have h1 : ¬ (c.toNat - 48 ≥ 10) := by omega
    have h2 : ¬ (n ≥ maxUint64 / 10 + 1) := by
      simp only [maxUint64]; omega
    have h3 : uint64 (n * 10) = n * 10 := by
      simp only [uint64]; omega
    have h4 : uint64 (n * 10 + (c.toNat - 48)) = n * 10 + (c.toNat - 48) := by
      simp only [uint64]; omega
    have h5 : ¬ (n * 10 + (c.toNat - 48) < n * 10 ∨ n * 10 + (c.toNat - 48) > maxVal) := by
      omega
    rw [parseUintLoop, digitVal_of_isDigit c hc]
    simp only [h1, h2, h3, h4, h5, if_false]
    rw [ih _ hrest hle, decVal_cons]

theorem parseUintLoop_inv (maxVal : Nat) (cs : List Char) :
    ∀ n m, parseUintLoop maxVal cs n = (m, none) →
      (∀ c ∈ cs, isDigit c) ∧ m = decVal cs n ∧ (cs ≠ [] → m ≤ maxVal) := by
  induction cs with
  | nil =>
    intro n m h
    simp only [parseUintLoop, Prod.mk.injEq, and_true] at h
    simp [decVal, h]
  | cons c cs ih =>
    intro n m h
    rw [parseUintLoop] at h
    split at h
    · simp at h
    · rename_i d hd
      split at h
      · simp at h
      · rename_i hd10
        split at h
        · simp at h
        · rename_i hcut
          simp only at h
          split at h
          · simp at h
          · rename_i hov
            obtain ⟨hdig, hval⟩ := digitVal_lt_ten c d hd (by omega)
            have hn : n * 10 ≤ 2 ^ 64 - 1 := by
              simp only [maxUint64] at hcut; omega
            have h3 : uint64 (n * 10) = n * 10 := by
              simp only [uint64]; omega
            rw [h3] at h hov
            have h4 : uint64 (n * 10 + d) = n * 10 + d := by
              simp only [uint64] at hov ⊢
              omega
            rw [h4] at h hov
            obtain ⟨hall, hm, hb⟩ := ih _ _ h
            refine ⟨?_, ?_, ?_⟩
            · intro x hx
              rcases List.mem_cons.mp hx with rfl | hx
              · exact hdig
              · exact hall x hx
            · rw [decVal_cons, ← hval]; exact hm
            · intro _
              by_cases hcs : cs = []
              · subst hcs
                simp only [decVal, List.foldl_nil] at hm
                omega
              · exact hb hcs

theorem parseUintLoop_err (maxVal : Nat) (cs : List Char) :
    ∀ n v e, parseUintLoop maxVal cs n = (v, some e) →
      (e = StrconvErr.ErrSyntax ∧ v = 0) ∨ (e = StrconvErr.ErrRange ∧ v = maxVal) := by
  induction cs with
  | nil => intro n v e h; simp [parseUintLoop] at h
  | cons c cs ih =>
    intro n v e h
    rw [parseUintLoop] at h
    split at h
    · simp only [Prod.mk.injEq, Option.some.injEq] at h
      exact Or.inl ⟨h.2.symm, h.1.symm⟩
    · split at h
      · simp only [Prod.mk.injEq, Option.some.injEq] at h
        exact Or.inl ⟨h.2.symm, h.1.symm⟩
      · split at h
        · simp only [Prod.mk.injEq, Option.some.injEq] at h
          exact Or.inr ⟨h.2.symm, h.1.symm⟩
        · simp only at h
          split at h
          · simp only [Prod.mk.injEq, Option.some.injEq] at h
            exact Or.inr ⟨h.2.symm, h.1.symm⟩
          · exact ih _ _ _ h

theorem maxVal_eq (b : Nat) (hb1 : 1 ≤ b) (hb : b ≤ 64) :
    uint64 (uint64 (2 ^ b) + 2 ^ 64 - 1) = 2 ^ b - 1 := by
  have hpos : 1 ≤ 2 ^ b := Nat.one_le_two_pow
  rcases Nat.lt_or_ge b 64 with hlt | hge
  · have h : 2 ^ b < 2 ^ 64 := Nat.pow_lt_pow_right (by decide) hlt
    simp only [uint64]
    omega
  · have h : b = 64 := by omega
    subst h
    decide

theorem string_eq_empty_iff (s : String) : s = "" ↔ s.data = [] := by
  constructor
  · intro h; subst h; rfl
  · intro h; exact String.ext h

theorem ParseUint_ok_iff (s : String) (b : Nat) (hb1 : 1 ≤ b) (hb : b ≤ 64) (m : Nat) :
    ParseUint s b = (m, none) ↔ natLiteral? s.data = some m ∧ m ≤ 2 ^ b - 1 := by
  have hb0 : ¬ b = 0 := by omega
  have hb64 : ¬ b > 64 := by omega
  unfold ParseUint natLiteral?
  by_cases hs : s = ""
  · have hd : s.data = [] := (string_eq_empty_iff s).mp hs
    simp [hs, hd, syntaxError]
  · have hd : s.data ≠ [] := fun h => hs ((string_eq_empty_iff s).mpr h)
    simp only [hs, hb64, hb0, if_false, maxVal_eq b hb1 hb]
    constructor
    · intro h
      split at h
      · simp at h
      · rename_i n hn
        simp only [Prod.mk.injEq, and_true] at h
        subst h
        obtain ⟨hall, hm, hle⟩ := parseUintLoop_inv _ _ _ _ hn
        refine ⟨?_, hle hd⟩
        rw [if_pos ⟨hd, hall⟩, hm]
    · rintro ⟨h, hle⟩
      split at h
      · rename_i hc
        simp only [Option.some.injEq] at h
        subst h
        rw [parseUintLoop_ok _ (Nat.sub_le_sub_right
          (Nat.pow_le_pow_right (by decide) hb) 1) _ _ hc.2 hle]
      · simp at h

theorem ParseUint_err (s : String) (b : Nat) (hb1 : 1 ≤ b) (hb : b ≤ 64) (v : Nat)
    (e : GoError) (h : ParseUint s b = (v, some e)) :
    (e = syntaxError "ParseUint" s ∧ v = 0) ∨ (e = rangeError "ParseUint" s ∧ v = 2 ^ b - 1) := by
  have hb0 : ¬ b = 0 := by omega
  have hb64 : ¬ b > 64 := by omega
  unfold ParseUint at h
  by_cases hs : s = ""
  · simp only [hs, if_true, Prod.mk.injEq, Option.some.injEq] at h
    left
    rw [hs]
    exact ⟨h.2.symm, h.1.symm⟩
  · simp only [hs, hb64, hb0, if_false, maxVal_eq b hb1 hb] at h
    split at h
    · rename_i n k hn
      simp only [Prod.mk.injEq, Option.some.injEq] at h
      obtain ⟨h1, h2⟩ := h
      subst h1 h2
      rcases parseUintLoop_err _ _ _ _ _ hn with ⟨hk, hv⟩ | ⟨hk, hv⟩
      · left; subst hk; exact ⟨rfl, hv⟩
      · right; subst hk; exact ⟨rfl, hv⟩
    · simp at h

theorem two_pow_pred_bounds (b : Nat) (hb2 : 2 ≤ b) (hb : b ≤ 64) :
    2 ≤ 2 ^ (b - 1) ∧ 2 ^ (b - 1) ≤ 2 ^ 63 ∧ 2 ^ b = 2 * 2 ^ (b - 1) := by
  refine ⟨?_, ?_, ?_⟩
  · calc 2 = 2 ^ 1 := by norm_num
      _ ≤ 2 ^ (b - 1) := Nat.pow_le_pow_right (by decide) (by omega)
  · exact Nat.pow_le_pow_right (by decide) (by omega)
  · have : b = (b - 1) + 1 := by omega
    conv_lhs => rw [this]
    rw [Nat.pow_succ]; omega

theorem parseIntRange_ok_iff (s0 : String) (neg : Bool) (un b : Nat) (hb2 : 2 ≤ b)
    (hb : b ≤ 64) (i : Int) :
    parseIntRange s0 neg un b = (i, none) ↔
      (neg = false ∧ un < 2 ^ (b - 1) ∧ i = (un : Int)) ∨
      (neg = true ∧ un ≤ 2 ^ (b - 1) ∧ i = -(un : Int)) := by
  obtain ⟨hx2, hx63, _⟩ := two_pow_pred_bounds b hb2 hb
  have hb0 : ¬ b = 0 := by omega
  unfold parseIntRange
  simp only [hb0, if_false]
  generalize 2 ^ (b - 1) = x at hx2 hx63 ⊢
  have hux : uint64 x = x := by simp only [uint64]; omega
  rw [hux]
  cases neg
  · by_cases h : un ≥ x
    · simp [h, rangeError]
    · have e1 : int64 (un : Int) = (un : Int) := by simp only [int64]; omega
      simp [h, e1]
      constructor
      · intro hi; exact ⟨by omega, hi.symm⟩
      · intro hi; exact hi.2.symm
  · by_cases h : un > x
    · simp [h, rangeError]
    · have e1 : int64 (-(int64 (un : Int))) = -(un : Int) := by simp only [int64]; omega
      simp [h, e1]
      constructor
      · intro hi; exact ⟨by omega, hi.symm⟩
      · intro hi; exact hi.2.symm

theorem parseIntRange_err (s0 : String) (neg : Bool) (un b : Nat) (v : Int) (e : GoError)
    (h : parseIntRange s0 neg un b = (v, some e)) : e = rangeError "ParseInt" s0 := by
  unfold parseIntRange at h
  by_cases h1 : (!neg && decide (un ≥ uint64 (2 ^ ((if b = 0 then IntSize else b) - 1)))) = true
  · simp only [h1, if_true, Prod.mk.injEq, Option.some.injEq] at h
    exact h.2.symm
  · by_cases h2 : (neg && decide (un > uint64 (2 ^ ((if b = 0 then IntSize else b) - 1)))) = true
    · rw [if_neg h1, if_pos h2] at h
      simp only [Prod.mk.injEq, Option.some.injEq] at h
      exact h.2.symm
    · rw [if_neg h1, if_neg h2] at h
      simp at h

theorem intLiteral_pickSign (s : String) :
    intLiteral? s = (natLiteral? (pickSign s).2.data).map
      (fun n => if (pickSign s).1 then -(Int.ofNat n) else Int.ofNat n) := by
  unfold intLiteral? pickSign
  split <;> rfl

theorem ParseInt_ok_iff (s : String) (b : Nat) (hb2 : 2 ≤ b) (hb : b ≤ 64) (i : Int) :
    ParseInt s b = (i, none) ↔
      intLiteral? s = some i ∧ -(2 ^ (b - 1) : Int) ≤ i ∧ i ≤ 2 ^ (b - 1) - 1 := by
  obtain ⟨hx2, hx63, hxb⟩ := two_pow_pred_bounds b hb2 hb
  have hcast : ((2 : Int) ^ (b - 1)) = ((2 ^ (b - 1) : Nat) : Int) := by push_cast; rfl
  rw [hcast]
  by_cases hs : s = ""
  · subst hs
    simp [ParseInt, intLiteral?, natLiteral?, syntaxError]
  · rw [intLiteral_pickSign]
    unfold ParseInt
    simp only [hs, if_false]
    generalize pickSign s = sg
    obtain ⟨neg, t⟩ := sg
    simp only
    have hU := ParseUint_ok_iff t b (by omega) hb
    have hE := ParseUint_err t b (by omega) hb
    generalize hres : ParseUint t b = res at hU hE
    obtain ⟨un, oe⟩ := res
    cases oe with
    | none =>
      have hlit := (hU un).mp rfl
      simp only [hlit.1, Option.map_some', Option.some.injEq]
      rw [parseIntRange_ok_iff s (neg) un b hb2 hb i]
      obtain ⟨_, hle⟩ := hlit
      generalize 2 ^ (b - 1) = x at hx2 hx63 hxb ⊢
      cases neg <;> simp <;> omega
    | some e =>
      have hno : ∀ m, natLiteral? t.data = some m → ¬ m ≤ 2 ^ b - 1 := by
        intro m hm hle
        have := (hU m).mpr ⟨hm, hle⟩
        simp at this
      have hfalse : ¬ ((natLiteral? t.data).map
          (fun n => if neg = true then -(Int.ofNat n) else Int.ofNat n) = some i ∧
          -((2 ^ (b - 1) : Nat) : Int) ≤ i ∧ i ≤ ((2 ^ (b - 1) : Nat) : Int) - 1) := by
        rintro ⟨h1, h2, h3⟩
        cases hn : natLiteral? t.data with
        | none => simp [hn] at h1
        | some m =>
          have hm := hno m hn
          simp only [hn, Option.map_some', Option.some.injEq] at h1
          generalize 2 ^ (b - 1) = x at hx2 hx63 hxb h2 h3
          rw [hxb] at hm
          cases neg <;> simp at h1 <;> omega
      simp only [hfalse, iff_false]
      rcases hE un e rfl with ⟨he, hv⟩ | ⟨he, hv⟩
      · subst he
        simp [syntaxError]
      · subst he
        simp only [rangeError, ne_eq, not_true_eq_false, if_false]
        intro hcontra
        have := (parseIntRange_ok_iff s neg un b hb2 hb i).mp hcontra
        generalize 2 ^ (b - 1) = x at hx2 hx63 hxb this
        rw [hxb] at hv
        omega

theorem ParseInt_err (s : String) (b : Nat) (hb2 : 2 ≤ b) (hb : b ≤ 64) (v : Int)
    (e : GoError) (h : ParseInt s b = (v, some e)) :
    e = syntaxError "ParseInt" s ∨ e = rangeError "ParseInt" s := by
  unfold ParseInt at h
  by_cases hs : s = ""
  · simp only [hs, if_true, Prod.mk.injEq, Option.some.injEq] at h
    left; rw [hs]; exact h.2.symm
  · simp only [hs, if_false] at h
    have hE := ParseUint_err (pickSign s).2 b (by omega) hb
    generalize hres : ParseUint (pickSign s).2 b = res at h hE
    obtain ⟨un, oe⟩ := res
    cases oe with
    | none => exact Or.inr (parseIntRange_err _ _ _ _ _ _ h)
    | some e1 =>
      rcases hE un e1 rfl with ⟨he, _⟩ | ⟨he, _⟩
      · subst he
        simp [syntaxError] at h
        exact Or.inl h.2.symm
      · subst he
        simp only [rangeError, ne_eq, not_true_eq_false, if_false] at h
        exact Or.inr (parseIntRange_err _ _ _ _ _ _ h)

/-! ## Rendering and parsing back -/

theorem digitChar_toNat (k : Nat) (hk : k < 10) : (Nat.digitChar k).toNat = 48 + k := by
  interval_cases k <;> rfl

theorem decVal_append (xs ys : List Char) (a : Nat) :
    decVal (xs ++ ys) a = decVal ys (decVal xs a) := by
  simp [decVal, List.foldl_append]

theorem toDigitsCore_spec (fuel : Nat) :
    ∀ n ds, n < fuel → ∃ xs, Nat.toDigitsCore 10 fuel n ds = xs ++ ds ∧ xs ≠ [] ∧
      (∀ c ∈ xs, isDigit c) ∧ ∀ a, decVal xs a = a * 10 ^ xs.length + n := by
  induction fuel with
  | zero => intro n ds h; omega
  | succ fuel ih =>
    intro n ds hn
    have hd : (Nat.digitChar (n % 10)).toNat = 48 + n % 10 :=
      digitChar_toNat _ (Nat.mod_lt _ (by decide))
    have hdig : isDigit (Nat.digitChar (n % 10)) := by
      unfold isDigit; have := Nat.mod_lt n (show 10 > 0 by decide); omega
    rw [Nat.toDigitsCore]
    by_cases h0 : n / 10 = 0
    · simp only [h0, if_true]
      refine ⟨[Nat.digitChar (n % 10)], rfl, by simp, ?_, ?_⟩
      · intro c hc
        rw [List.mem_singleton] at hc
        rw [hc]; exact hdig
      · intro a
        simp only [decVal, List.foldl_cons, List.foldl_nil, hd, List.length_singleton]
        omega
    · simp only [h0, if_false]
      obtain ⟨xs, hxs, _, hall, hval⟩ := ih (n / 10) (Nat.digitChar (n % 10) :: ds) (by omega)
      refine ⟨xs ++ [Nat.digitChar (n % 10)], ?_, by simp, ?_, ?_⟩
      · rw [hxs]; simp
      · intro c hc
        rcases List.mem_append.mp hc with h | h
        · exact hall c h
        · rw [List.mem_singleton] at h
          rw [h]; exact hdig
      · intro a
        rw [decVal_append, hval a]
        simp only [decVal, List.foldl_cons, List.foldl_nil, hd, List.length_append,
          List.length_singleton, Nat.pow_succ]
        have := Nat.div_add_mod n 10
        ring_nf
        omega

theorem natLiteral_toDigits (n : Nat) : natLiteral? (Nat.toDigits 10 n) = some n := by
  obtain ⟨xs, hxs, hne, hall, hval⟩ := toDigitsCore_spec (n + 1) n [] (Nat.lt_succ_self n)
  rw [List.append_nil] at hxs
  unfold natLiteral? Nat.toDigits
  rw [hxs, if_pos ⟨hne, hall⟩, hval 0]
  simp

theorem toDigits_head_isDigit (n : Nat) :
    ∃ c cs, Nat.toDigits 10 n = c :: cs ∧ isDigit c := by
  obtain ⟨xs, hxs, hne, hall, _⟩ := toDigitsCore_spec (n + 1) n [] (Nat.lt_succ_self n)
  rw [List.append_nil] at hxs
  unfold Nat.toDigits
  rw [hxs]
  cases xs with
  | nil => exact absurd rfl hne
  | cons c cs => exact ⟨c, cs, rfl, hall c (List.mem_cons_self c cs)⟩

theorem intLiteral_FormatInt (i : Int) : intLiteral? (FormatInt i) = some i := by
  unfold FormatInt
  by_cases hi : i < 0
  · simp only [hi, if_true, intLiteral?, natLiteral_toDigits, Option.map_some',
      Option.some.injEq]
    simp only [Int.ofNat_eq_coe]
    omega
  · simp only [hi, if_false, FormatUint, intLiteral?]
    obtain ⟨c, cs, hc, hdig⟩ := toDigits_head_isDigit i.toNat
    have hlit := natLiteral_toDigits i.toNat
    rw [hc] at hlit ⊢
    unfold isDigit at hdig
    have h1 : c ≠ '+' := by rintro rfl; revert hdig; decide
    have h2 : c ≠ '-' := by rintro rfl; revert hdig; decide
    split
    · rename_i heq; simp only [List.cons.injEq] at heq; exact absurd heq.1 h1
    · rename_i heq; simp only [List.cons.injEq] at heq; exact absurd heq.1 h2
    · rw [hlit]
      simp only [Option.map_some', Option.some.injEq, Int.ofNat_eq_coe]
      omega

/-! ## populateStruct as a walk over the fields -/

theorem populateStruct_leaf (env : Env) (pf : FloatParser) (f : StructField) (typ : GoType)
    (h : typ.isStruct = false) (field : Data) (rest : Fields) :
    populateStruct env pf (Fields.leaf f typ h field rest) =
      match processField env pf f typ field with
      | (d, some err) => (Fields.leaf f typ h d rest, some err)
      | (d, none) =>
        (Fields.leaf f typ h d (populateStruct env pf rest).1, (populateStruct env pf rest).2) := by
  rw [populateStruct]
  unfold processField
  simp only
  split
  · rfl
  · split
    · split <;> rename_i heq <;> simp [heq]
    · rfl

theorem walk_append (env : Env) (pf : FloatParser) (xs ys : List Leaf) :
    walk env pf (xs ++ ys) =
      match walk env pf xs with
      | (xs1, some err) => (xs1 ++ ys, some err)
      | (xs1, none) => (xs1 ++ (walk env pf ys).1, (walk env pf ys).2) := by
  induction xs with
  | nil => simp [walk]
  | cons x xs ih =>
    simp only [List.cons_append, walk]
    rcases hp : processField env pf x.f x.typ x.field with ⟨d, _ | e⟩
    · rcases hw : walk env pf xs with ⟨xs1, _ | e1⟩ <;> rw [hw] at ih <;> simp [ih]
    · simp

theorem populateStruct_walk (env : Env) (pf : FloatParser) (v : Fields) :
    (populateStruct env pf v).1.leaves = (walk env pf v.leaves).1 ∧
      (populateStruct env pf v).2 = (walk env pf v.leaves).2 := by
  induction v with
  | nil => simp [populateStruct, Fields.leaves, walk]
  | leaf f typ h field rest ih =>
    rw [populateStruct_leaf]
    simp only [Fields.leaves, walk]
    rcases hp : processField env pf f typ field with ⟨d, _ | e⟩
    · simp only [Fields.leaves, ih.1, ih.2, and_self]
    · simp [Fields.leaves]
  | nested f fs rest ih1 ih2 =>
    rw [populateStruct]
    simp only [Fields.leaves, walk_append]
    rcases hp : populateStruct env pf fs with ⟨fs1, _ | e⟩
    · rw [hp] at ih1
      simp only at ih1
      rcases hw : walk env pf fs.leaves with ⟨l1, r1⟩
      rw [hw] at ih1
      simp only at ih1
      obtain ⟨ha, hb⟩ := ih1
      subst ha hb
      simp only [Fields.leaves, ih2.1, ih2.2, and_self]
    · rw [hp] at ih1
      simp only at ih1
      rcases hw : walk env pf fs.leaves with ⟨l1, r1⟩
      rw [hw] at ih1
      simp only at ih1
      obtain ⟨ha, hb⟩ := ih1
      subst ha hb
      simp [Fields.leaves]

/-! ## Lemmas on setFieldValue and the walk -/

theorem setFieldValue_err_unchanged (pf : FloatParser) (typ : GoType) (d d1 : Data)
    (s : String) (e : GoError) (h : setFieldValue pf typ d s = (d1, some e)) : d1 = d := by
  cases typ <;> simp only [setFieldValue] at h
  case string => simp at h
  all_goals first
    | (simp only [Prod.mk.injEq] at h; exact h.1.symm)
    | (split at h
       · simp only [Prod.mk.injEq] at h; exact h.1.symm
       · simp at h)

theorem setFieldValue_ok_indep (pf : FloatParser) (typ : GoType) (d d0 v : Data)
    (s : String) (h : setFieldValue pf typ d s = (v, none)) :
    setFieldValue pf typ d0 s = (v, none) := by
  cases typ <;> simp only [setFieldValue] at h ⊢
  case string => exact h
  all_goals first
    | (simp at h)
    | (split at h
       · simp at h
       · exact h)

theorem processField_err_unchanged (env : Env) (pf : FloatParser) (f : StructField)
    (typ : GoType) (d d1 : Data) (e : GoError)
    (h : processField env pf f typ d = (d1, some e)) : d1 = d := by
  unfold processField at h
  simp only at h
  split at h
  · simp only [Prod.mk.injEq] at h; exact h.1.symm
  · split at h
    · exact setFieldValue_err_unchanged pf typ d d1 _ e h
    · simp at h

theorem processField_ok_cases (env : Env) (pf : FloatParser) (f : StructField)
    (typ : GoType) (d d1 : Data) (h : processField env pf f typ d = (d1, none)) :
    (Getenv env f.Tag.env = "" ∧ d1 = d) ∨
      (Getenv env f.Tag.env ≠ "" ∧
        setFieldValue pf typ d (Getenv env f.Tag.env) = (d1, none)) := by
  unfold processField at h
  simp only at h
  split at h
  · simp at h
  · split at h
    · rename_i hne
      right
      exact ⟨by simpa using hne, h⟩
    · rename_i hne
      left
      simp only [Prod.mk.injEq, and_true] at h
      exact ⟨by simpa using hne, h.symm⟩

theorem walk_ok (env : Env) (pf : FloatParser) (ls : List Leaf) :
    ∀ ls1, walk env pf ls = (ls1, none) → List.Forall₂ (Processed env pf) ls ls1 := by
  induction ls with
  | nil =>
    intro ls1 h
    simp only [walk, Prod.mk.injEq, and_true] at h
    subst h
    exact List.Forall₂.nil
  | cons l ls ih =>
    intro ls1 h
    rw [walk] at h
    rcases hp : processField env pf l.f l.typ l.field with ⟨d, _ | e⟩
    · rw [hp] at h
      simp only at h
      rcases hw : walk env pf ls with ⟨ls2, r⟩
      rw [hw] at h
      simp only [Prod.mk.injEq] at h
      obtain ⟨h1, h2⟩ := h
      subst h1 h2
      exact List.Forall₂.cons ⟨rfl, rfl, hp⟩ (ih _ hw)
    · rw [hp] at h
      simp at h

theorem walk_err (env : Env) (pf : FloatParser) (ls : List Leaf) :
    ∀ ls1 e, walk env pf ls = (ls1, some e) →
      ∃ pre a post pre1, ls = pre ++ a :: post ∧ ls1 = pre1 ++ a :: post ∧
        List.Forall₂ (Processed env pf) pre pre1 ∧
        processField env pf a.f a.typ a.field = (a.field, some e) := by
  induction ls with
  | nil => intro ls1 e h; simp [walk] at h
  | cons l ls ih =>
    intro ls1 e h
    rw [walk] at h
    rcases hp : processField env pf l.f l.typ l.field with ⟨d, _ | e1⟩
    · rw [hp] at h
      simp only at h
      rcases hw : walk env pf ls with ⟨ls2, r⟩
      rw [hw] at h
      simp only [Prod.mk.injEq] at h
      obtain ⟨h1, h2⟩ := h
      subst h1 h2
      obtain ⟨pre, a, post, pre1, e1, e2, hf, ha⟩ := ih _ _ hw
      refine ⟨l :: pre, a, post, ⟨l.f, l.typ, d⟩ :: pre1, ?_, ?_, ?_, ha⟩
      · rw [e1]; rfl
      · rw [e2]; rfl
      · exact List.Forall₂.cons ⟨rfl, rfl, hp⟩ hf
    · rw [hp] at h
      simp only [Prod.mk.injEq, Option.some.injEq] at h
      obtain ⟨h1, h2⟩ := h
      subst h1 h2
      have hd := processField_err_unchanged env pf _ _ _ _ _ hp
      subst hd
      exact ⟨[], l, ls, [], rfl, rfl, List.Forall₂.nil, hp⟩

theorem walk_first_error (env : Env) (pf : FloatParser) (pre : List Leaf) :
    ∀ (a : Leaf) (post : List Leaf) (e : GoError),
      (∀ x ∈ pre, (processField env pf x.f x.typ x.field).2 = none) →
      (processField env pf a.f a.typ a.field).2 = some e →
      (walk env pf (pre ++ a :: post)).2 = some e := by
  induction pre with
  | nil =>
    intro a post e _ ha
    simp only [List.nil_append, walk]
    rcases hp : processField env pf a.f a.typ a.field with ⟨d, _ | e1⟩
    · rw [hp] at ha; simp at ha
    · rw [hp] at ha; simpa using ha
  | cons x pre ih =>
    intro a post e hpre ha
    have hx := hpre x (List.mem_cons_self x pre)
    have hrest : ∀ y ∈ pre, (processField env pf y.f y.typ y.field).2 = none :=
      fun y hy => hpre y (List.mem_cons_of_mem x hy)
    simp only [List.cons_append, walk]
    rcases hp : processField env pf x.f x.typ x.field with ⟨d, _ | e1⟩
    · simp only
      exact ih a post e hrest ha
    · rw [hp] at hx; simp at hx

theorem walk_fails (env : Env) (pf : FloatParser) (ls : List Leaf) :
    ∀ a ∈ ls, (processField env pf a.f a.typ a.field).2 ≠ none →
      (walk env pf ls).2 ≠ none := by
  induction ls with
  | nil => intro a ha; simp at ha
  | cons l ls ih =>
    intro a ha hne
    simp only [walk]
    rcases hp : processField env pf l.f l.typ l.field with ⟨d, _ | e1⟩
    · simp only
      rcases List.mem_cons.mp ha with rfl | hmem
      · rw [hp] at hne; simp at hne
      · exact ih a hmem hne
    · simp

theorem walk_length (env : Env) (pf : FloatParser) (ls : List Leaf) :
    (walk env pf ls).1.length = ls.length := by
  induction ls with
  | nil => rfl
  | cons l ls ih =>
    simp only [walk]
    rcases hp : processField env pf l.f l.typ l.field with ⟨d, _ | e1⟩
    · simp [ih]
    · simp

theorem walk_keeps (env : Env) (pf : FloatParser) (pre post : List Leaf) (a : Leaf)
    (h : (processField env pf a.f a.typ a.field).1 = a.field) :
    ∃ pre1 post1, (walk env pf (pre ++ a :: post)).1 = pre1 ++ a :: post1 ∧
      pre1.length = pre.length := by
  rw [walk_append]
  have hlen := walk_length env pf pre
  rcases hw : walk env pf pre with ⟨pre1, _ | e⟩
  · rw [hw] at hlen
    simp only [walk]
    rcases hp : processField env pf a.f a.typ a.field with ⟨d, _ | e1⟩
    · rw [hp] at h
      simp only at h
      subst h
      exact ⟨pre1, (walk env pf post).1, rfl, hlen⟩
    · rw [hp] at h
      simp only at h
      subst h
      exact ⟨pre1, post, rfl, hlen⟩
  · rw [hw] at hlen
    exact ⟨pre1, post, rfl, hlen⟩

theorem FillConfig_ptrToStruct (env : Env) (pf : FloatParser) (v : Fields) :
    FillConfig env pf (Cfg.ptrToStruct v) =
      (Cfg.ptrToStruct (populateStruct env pf v).1, (populateStruct env pf v).2) := rfl

theorem processField_absent (env : Env) (pf : FloatParser) (f : StructField) (typ : GoType)
    (field : Data) (hreq : f.Tag.required ≠ "true") (habs : Getenv env f.Tag.env = "") :
    processField env pf f typ field = (field, none) := by
  unfold processField
  simp [hreq, habs]

theorem processField_missing (env : Env) (pf : FloatParser) (f : StructField) (typ : GoType)
    (field : Data) (hreq : f.Tag.required = "true") (habs : Getenv env f.Tag.env = "") :
    processField env pf f typ field =
      (field, some (errorsNew ("missing required environment variable: " ++ f.Tag.env))) := by
  unfold processField
  simp [hreq, habs]

theorem IntKind_Bits_bounds (k : IntKind) : 2 ≤ k.Bits ∧ k.Bits ≤ 64 := by
  cases k <;> simp [IntKind.Bits, IntSize]

theorem UintKind_Bits_bounds (k : UintKind) : 2 ≤ k.Bits ∧ k.Bits ≤ 64 := by
  cases k <;> simp [UintKind.Bits, IntSize]

/-! ## Splitting a joined string -/

theorem splitChars_ne_nil (sep : Char) (cs : List Char) : splitChars sep cs ≠ [] := by
  cases cs with
  | nil => simp [splitChars]
  | cons c cs =>
    rw [splitChars]
    split
    · simp
    · split <;> simp

theorem splitChars_of_not_mem (sep : Char) (cs : List Char) (h : sep ∉ cs) :
    splitChars sep cs = [cs] := by
  induction cs with
  | nil => rfl
  | cons c cs ih =>
    have hc : c ≠ sep := fun hc => h (hc ▸ List.mem_cons_self c cs)
    have hcs : sep ∉ cs := fun hm => h (List.mem_cons_of_mem c hm)
    rw [splitChars, if_neg hc, ih hcs]

theorem splitChars_append_sep (sep : Char) (xs ys : List Char) (h : sep ∉ xs) :
    splitChars sep (xs ++ sep :: ys) = xs :: splitChars sep ys := by
  induction xs with
  | nil => simp [splitChars]
  | cons c cs ih =>
    have hc : c ≠ sep := fun hc => h (hc ▸ List.mem_cons_self c cs)
    have hcs : sep ∉ cs := fun hm => h (List.mem_cons_of_mem c hm)
    rw [List.cons_append, splitChars, if_neg hc, ih hcs]

theorem splitChars_intercalate (sep : Char) (ss : List (List Char)) (hne : ss ≠ [])
    (h : ∀ s ∈ ss, sep ∉ s) : splitChars sep (List.intercalate [sep] ss) = ss := by
  induction ss with
  | nil => exact absurd rfl hne
  | cons x rest ih =>
    cases rest with
    | nil =>
      simp only [List.intercalate, List.intersperse_single, List.flatten_cons,
        List.flatten_nil, List.append_nil]
      exact splitChars_of_not_mem sep x (h x (List.mem_cons_self x []))
    | cons y rest =>
      have hx : sep ∉ x := h x (List.mem_cons_self x _)
      have hrest : ∀ s ∈ y :: rest, sep ∉ s := fun s hs => h s (List.mem_cons_of_mem x hs)
      have := ih (by simp) hrest
      simp only [List.intercalate, List.intersperse_cons₂, List.flatten_cons] at this ⊢
      rw [show x ++ ([sep] ++ (List.intersperse [sep] (y :: rest)).flatten) =
        x ++ sep :: (List.intersperse [sep] (y :: rest)).flatten from rfl]
      rw [splitChars_append_sep sep x _ hx, this]

theorem Split_Join (sep : Char) (ss : List String) (hne : ss ≠ [])
    (h : ∀ s ∈ ss, sep ∉ s.data) : Split (Join ss sep) sep = ss := by
  unfold Split Join
  simp only
  rw [splitChars_intercalate sep (ss.map String.data) (by simpa using hne)]
  · rw [List.map_map]
    have : (String.mk ∘ String.data) = id := by funext x; rfl
    rw [this, List.map_id]
  · intro s hs
    obtain ⟨t, ht, rfl⟩ := List.mem_map.mp hs
    exact h t ht

theorem setElems_ok_iff (set : Data → String → Data × Option GoError) (z : Data)
    (vals : List String) :
    ∀ out, setElems set (List.replicate vals.length z) vals = (out, none) ↔
      List.Forall₂ (fun s v => set z s = (v, none)) vals out := by
  induction vals with
  | nil =>
    intro out
    simp only [List.length_nil, List.replicate_zero, setElems, Prod.mk.injEq, and_true]
    constructor
    · intro h; subst h; exact List.Forall₂.nil
    · intro h; cases h; rfl
  | cons s vals ih =>
    intro out
    simp only [List.length_cons, List.replicate_succ, setElems]
    rcases hs : set z s with ⟨v, _ | e⟩
    · simp only
      rcases hr : setElems set (List.replicate vals.length z) vals with ⟨out1, r⟩
      simp only [Prod.mk.injEq]
      constructor
      · rintro ⟨h1, h2⟩
        subst h1 h2
        exact List.Forall₂.cons hs ((ih out1).mp hr)
      · intro h
        cases h with
        | cons h1 h2 =>
          rw [hs] at h1
          simp only [Prod.mk.injEq, and_true] at h1
          subst h1
          have := (ih _).mpr h2
          rw [hr] at this
          simp only [Prod.mk.injEq] at this
          exact ⟨by rw [this.1], this.2⟩
    · simp only [Prod.mk.injEq, reduceCtorEq, and_false, false_iff]
      intro h
      cases h with
      | cons h1 h2 => rw [hs] at h1; simp at h1

theorem setElems_err_iff (set : Data → String → Data × Option GoError) (z : Data)
    (vals : List String) :
    (setElems set (List.replicate vals.length z) vals).2 ≠ none ↔
      ∃ s ∈ vals, (set z s).2 ≠ none := by
  induction vals with
  | nil => simp [setElems]
  | cons s vals ih =>
    simp only [List.length_cons, List.replicate_succ, setElems]
    rcases hs : set z s with ⟨v, _ | e⟩
    · simp only [List.mem_cons, exists_eq_or_imp, hs, ne_eq, not_true_eq_false, false_or]
      exact ih
    · simp [hs]

theorem setElems_err_mem (set : Data → String → Data × Option GoError) (z : Data)
    (vals : List String) (e : GoError)
    (h : (setElems set (List.replicate vals.length z) vals).2 = some e) :
    ∃ s ∈ vals, (set z s).2 = some e := by
  induction vals with
  | nil => simp [setElems] at h
  | cons s vals ih =>
    simp only [List.length_cons, List.replicate_succ, setElems] at h
    rcases hs : set z s with ⟨v, _ | e1⟩
    · rw [hs] at h
      simp only at h
      obtain ⟨t, ht, hte⟩ := ih h
      exact ⟨t, List.mem_cons_of_mem s ht, hte⟩
    · rw [hs] at h
      simp only [Option.some.injEq] at h
      exact ⟨s, List.mem_cons_self s vals, by rw [hs, ← h]⟩

theorem splitChars_mem_not_sep (sep : Char) (cs : List Char) :
    ∀ seg ∈ splitChars sep cs, sep ∉ seg := by
  induction cs with
  | nil => intro seg h; simp [splitChars] at h; subst h; simp
  | cons c cs ih =>
    intro seg h
    rw [splitChars] at h
    split at h
    · rcases List.mem_cons.mp h with rfl | h
      · simp
      · exact ih seg h
    · rename_i hc
      rcases hsp : splitChars sep cs with _ | ⟨seg0, segs⟩
      · exact absurd hsp (splitChars_ne_nil sep cs)
      · rw [hsp] at h ih
        simp only at h
        rcases List.mem_cons.mp h with rfl | h
        · intro hm
          rcases List.mem_cons.mp hm with rfl | hm
          · exact hc rfl
          · exact ih seg0 (List.mem_cons_self _ _) hm
        · exact ih seg (List.mem_cons_of_mem _ h)

theorem Split_mem_not_sep (sep : Char) (s seg : String) (h : seg ∈ Split s sep) :
    sep ∉ seg.data := by
  unfold Split at h
  obtain ⟨cs, hcs, rfl⟩ := List.mem_map.mp h
  exact splitChars_mem_not_sep sep s.data cs hcs

theorem Split_of_not_mem (sep : Char) (s : String) (h : sep ∉ s.data) : Split s sep = [s] := by
  unfold Split
  rw [splitChars_of_not_mem sep s.data h]
  rfl

theorem setFieldValue_err_shape (pf : FloatParser) (typ : GoType) :
    ∀ (d d1 : Data) (s : String) (e : GoError), setFieldValue pf typ d s = (d1, some e) →
      (∃ fn num k, e = GoError.NumError fn num k ∧ typ.parser = some fn ∧
        (typ.isSlice = false → num = s) ∧ (typ.isSlice = true → num ∈ Split s ',')) ∨
      (∃ kind, typ.parser = none ∧ e = errorsNew ("unsupported field type: " ++ kind)) := by
  induction typ with
  | string => intro d d1 s e h; simp [setFieldValue] at h
  | int k =>
    intro d d1 s e h
    obtain ⟨hb2, hb⟩ := IntKind_Bits_bounds k
    simp only [setFieldValue] at h
    rcases hp : ParseInt s k.Bits with ⟨i, _ | e1⟩
    · rw [hp] at h; simp at h
    · rw [hp] at h
      simp only [Prod.mk.injEq, Option.some.injEq] at h
      obtain ⟨_, rfl⟩ := h
      left
      rcases ParseInt_err s k.Bits hb2 hb i e1 hp with he | he
      · exact ⟨"ParseInt", s, StrconvErr.ErrSyntax, he, rfl, fun _ => rfl, by simp [GoType.isSlice]⟩
      · exact ⟨"ParseInt", s, StrconvErr.ErrRange, he, rfl, fun _ => rfl, by simp [GoType.isSlice]⟩
  | uint k =>
    intro d d1 s e h
    obtain ⟨hb2, hb⟩ := UintKind_Bits_bounds k
    simp only [setFieldValue] at h
    rcases hp : ParseUint s k.Bits with ⟨i, _ | e1⟩
    · rw [hp] at h; simp at h
    · rw [hp] at h
      simp only [Prod.mk.injEq, Option.some.injEq] at h
      obtain ⟨_, rfl⟩ := h
      left
      rcases ParseUint_err s k.Bits (by omega) hb i e1 hp with ⟨he, _⟩ | ⟨he, _⟩
      · exact ⟨"ParseUint", s, StrconvErr.ErrSyntax, he, rfl, fun _ => rfl,
          by simp [GoType.isSlice]⟩
      · exact ⟨"ParseUint", s, StrconvErr.ErrRange, he, rfl, fun _ => rfl,
          by simp [GoType.isSlice]⟩
  | bool =>
    intro d d1 s e h
    simp only [setFieldValue, ParseBool] at h
    left
    refine ⟨"ParseBool", s, StrconvErr.ErrSyntax, ?_, rfl, fun _ => rfl, by simp [GoType.isSlice]⟩
    split_ifs at h <;> simp [syntaxError] at h
    exact h.2.symm
  | float k =>
    intro d d1 s e h
    simp only [setFieldValue, ParseFloat] at h
    left
    rcases hp : pf s k.Bits with ⟨x, _ | k1⟩
    · rw [hp] at h; simp at h
    · rw [hp] at h
      simp only [Prod.mk.injEq, Option.some.injEq] at h
      exact ⟨"ParseFloat", s, k1, h.2.symm, rfl, fun _ => rfl, by simp [GoType.isSlice]⟩
  | slice elem ih =>
    intro d d1 s e h
    simp only [setFieldValue] at h
    rcases hr : setElems (setFieldValue pf elem)
      (List.replicate (Split s ',').length (zero elem)) (Split s ',') with ⟨out, _ | e1⟩
    · rw [hr] at h; simp at h
    · rw [hr] at h
      simp only [Prod.mk.injEq, Option.some.injEq] at h
      obtain ⟨_, rfl⟩ := h
      obtain ⟨seg, hseg, hsege⟩ :=
        setElems_err_mem (setFieldValue pf elem) (zero elem) (Split s ',') e1 (by rw [hr])
      have hnc := Split_mem_not_sep ',' s seg hseg
      rcases ih (zero elem) (setFieldValue pf elem (zero elem) seg).1 seg e1
        (by rw [← hsege]) with ⟨fn, num, k, he, hpar, h1, h2⟩ | ⟨kind, hpar, he⟩
      · left
        refine ⟨fn, num, k, he, hpar, by simp [GoType.isSlice], fun _ => ?_⟩
        cases hsl : elem.isSlice
        · rw [h1 hsl]; exact hseg
        · have := h2 hsl
          rw [Split_of_not_mem ',' seg hnc, List.mem_singleton] at this
          rw [this]; exact hseg
      · right
        exact ⟨kind, hpar, he⟩
  | struct =>
    intro d d1 s e h
    simp only [setFieldValue, Prod.mk.injEq, Option.some.injEq] at h
    exact Or.inr ⟨"struct", rfl, h.2.symm⟩
  | other k =>
    intro d d1 s e h
    simp only [setFieldValue, Prod.mk.injEq, Option.some.injEq] at h
    exact Or.inr ⟨k.String, rfl, h.2.symm⟩

theorem processField_present (env : Env) (pf : FloatParser) (f : StructField) (typ : GoType)
    (field : Data) (hne : Getenv env f.Tag.env ≠ "") :
    processField env pf f typ field = setFieldValue pf typ field (Getenv env f.Tag.env) := by
  unfold processField
  simp [hne]

theorem populateStruct_env_congr (env env1 : Env) (pf : FloatParser) (v : Fields) :
    (∀ l ∈ v.leaves, Getenv env1 l.f.Tag.env = Getenv env l.f.Tag.env) →
      populateStruct env1 pf v = populateStruct env pf v := by
  induction v with
  | nil => intro _; rfl
  | leaf f typ h field rest ih =>
    intro hagree
    have hf : Getenv env1 f.Tag.env = Getenv env f.Tag.env :=
      hagree ⟨f, typ, field⟩ (by simp [Fields.leaves])
    have hrest := ih (fun l hl => hagree l (by simp [Fields.leaves, hl]))
    have hp : processField env1 pf f typ field = processField env pf f typ field := by
      unfold processField
      simp only [hf]
    rw [populateStruct_leaf, populateStruct_leaf, hrest, hp]
  | nested f fs rest ih1 ih2 =>
    intro hagree
    have h1 := ih1 (fun l hl => hagree l (by simp [Fields.leaves, hl]))
    have h2 := ih2 (fun l hl => hagree l (by simp [Fields.leaves, hl]))
    rw [populateStruct, populateStruct, h1, h2]

theorem forall₂_mem_left {α β : Type} (R : α → β → Prop) (l1 : List α) (l2 : List β)
    (h : List.Forall₂ R l1 l2) : ∀ x ∈ l1, ∃ y ∈ l2, R x y := by
  induction h with
  | nil => intro x hx; cases hx
  | cons hab _ ih =>
    intro x hx
    rcases List.mem_cons.mp hx with rfl | hx
    · exact ⟨_, List.mem_cons_self _ _, hab⟩
    · obtain ⟨y, hy, hr⟩ := ih x hx
      exact ⟨y, List.mem_cons_of_mem _ hy, hr⟩

theorem walk_none_iff (env : Env) (pf : FloatParser) (ls : List Leaf) :
    (walk env pf ls).2 = none ↔ ∀ x ∈ ls, (processField env pf x.f x.typ x.field).2 = none := by
  induction ls with
  | nil => simp [walk]
  | cons l ls ih =>
    simp only [walk, List.mem_cons, forall_eq_or_imp]
    rcases hp : processField env pf l.f l.typ l.field with ⟨d, _ | e1⟩
    · simp only [true_and]
      exact ih
    · simp

theorem Getenv_of_none (env : Env) (key : String) (h : env key = none) : Getenv env key = "" := by
  unfold Getenv
  split
  · rfl
  · rw [h]; rfl

theorem Getenv_ne_empty (env : Env) (key : String) (h : Getenv env key ≠ "") :
    key ≠ "" ∧ env key = some (Getenv env key) := by
  unfold Getenv at h ⊢
  by_cases hk : key = ""
  · rw [if_pos hk] at h; exact absurd rfl h
  · rw [if_neg hk] at h ⊢
    refine ⟨hk, ?_⟩
    cases he : env key with
    | none => rw [he] at h; exact absurd rfl h
    | some raw => rfl

theorem Split_ne_nil (s : String) (sep : Char) : Split s sep ≠ [] := by
  unfold Split
  intro h
  exact splitChars_ne_nil sep s.data (List.map_eq_nil_iff.mp h)

theorem setFieldValue_slice_ok (pf : FloatParser) (elem : GoType) (d v : Data) (s : String)
    (h : setFieldValue pf (GoType.slice elem) d s = (v, none)) :
    ∃ xs, v = Data.slice xs ∧ xs.length = (Split s ',').length ∧
      List.Forall₂ (fun seg x => setFieldValue pf elem (zero elem) seg = (x, none))
        (Split s ',') xs := by
  simp only [setFieldValue] at h
  rcases hr : setElems (setFieldValue pf elem)
    (List.replicate (Split s ',').length (zero elem)) (Split s ',') with ⟨out, _ | e1⟩
  · rw [hr] at h
    simp only [Prod.mk.injEq, and_true] at h
    have hall := (setElems_ok_iff (setFieldValue pf elem) (zero elem) (Split s ',') out).mp hr
    exact ⟨out, h.symm, hall.length_eq.symm, hall⟩
  · rw [hr] at h; simp at h

theorem append_ne_of_head (a b c : String) (x y : Char) (xs ys : List Char)
    (ha : a.data = x :: xs) (hc : c.data = y :: ys) (hxy : x ≠ y) : a ++ b ≠ c := by
  intro h
  have hd : (a ++ b).data = c.data := by rw [h]
  rw [String.data_append, ha, hc] at hd
  simp only [List.cons_append, List.cons.injEq] at hd
  exact hxy hd.1

theorem processField_err_cases (env : Env) (pf : FloatParser) (f : StructField)
    (typ : GoType) (d : Data) (e : GoError)
    (h : (processField env pf f typ d).2 = some e) :
    e = errorsNew ("missing required environment variable: " ++ f.Tag.env) ∨
      (setFieldValue pf typ d (Getenv env f.Tag.env)).2 = some e := by
  unfold processField at h
  simp only at h
  split at h
  · simp only [Option.some.injEq] at h
    exact Or.inl h.symm
  · split at h
    · exact Or.inr h
    · simp at h

theorem processField_err_ne_invalid (env : Env) (pf : FloatParser) (f : StructField)
    (typ : GoType) (d : Data) (e : GoError)
    (h : (processField env pf f typ d).2 = some e) :
    e ≠ errorsNew "cfg must be a pointer to a struct" := by
  rcases processField_err_cases env pf f typ d e h with he | he
  · rw [he]
    intro hc
    simp only [errorsNew, GoError.errorString.injEq] at hc
    exact append_ne_of_head "missing required environment variable: " f.Tag.env
      "cfg must be a pointer to a struct" 'm' 'c' _ _ rfl rfl (by decide) hc
  · rcases setFieldValue_err_shape pf typ d _ _ e (by rw [← he]) with
      ⟨fn, num, k, hk, _⟩ | ⟨kind, _, hk⟩
    · rw [hk]; simp [errorsNew]
    · rw [hk]
      intro hc
      simp only [errorsNew, GoError.errorString.injEq] at hc
      exact append_ne_of_head "unsupported field type: " kind
        "cfg must be a pointer to a struct" 'u' 'c' _ _ rfl rfl (by decide) hc

theorem populateStruct_err_field (env : Env) (pf : FloatParser) (v : Fields) (e : GoError)
    (h : (populateStruct env pf v).2 = some e) :
    ∃ pre a post, v.leaves = pre ++ a :: post ∧
      (∀ x ∈ pre, (processField env pf x.f x.typ x.field).2 = none) ∧
      (processField env pf a.f a.typ a.field).2 = some e := by
  rw [(populateStruct_walk env pf v).2] at h
  rcases hw : walk env pf v.leaves with ⟨ls1, r⟩
  rw [hw] at h
  simp only at h
  subst h
  obtain ⟨pre, a, post, pre1, h1, _, hf, ha⟩ := walk_err env pf _ _ _ hw
  refine ⟨pre, a, post, h1, ?_, by rw [ha]⟩
  intro x hx
  obtain ⟨y, _, _, _, hp⟩ := forall₂_mem_left _ _ _ hf x hx
  rw [hp]

theorem FillConfig_env_congr (env env1 : Env) (pf : FloatParser) (cfg : Cfg)
    (h : ∀ k, Getenv env1 k = Getenv env k) : FillConfig env1 pf cfg = FillConfig env pf cfg := by
  cases cfg with
  | ptrToStruct v =>
    rw [FillConfig_ptrToStruct, FillConfig_ptrToStruct,
      populateStruct_env_congr env env1 pf v (fun l _ => h l.f.Tag.env)]
  | untypedNil => rfl
  | structValue v => rfl
  | otherValue typ d => rfl
  | nilPtr => rfl
  | ptrToOther typ d => rfl

theorem processField_idem (env : Env) (pf : FloatParser) (f : StructField) (typ : GoType)
    (d d1 : Data) (r : Option GoError) (h : processField env pf f typ d = (d1, r)) :
    processField env pf f typ d1 = (d1, r) := by
  cases r with
  | some e =>
    have hd := processField_err_unchanged env pf f typ d d1 e h
    rw [hd]; rw [hd] at h; exact h
  | none =>
    rcases processField_ok_cases env pf f typ d d1 h with ⟨_, hd⟩ | ⟨hne, hset⟩
    · rw [hd]; rw [hd] at h; exact h
    · rw [processField_present env pf f typ d1 hne]
      exact setFieldValue_ok_indep pf typ d d1 d1 _ hset

theorem populateStruct_idem (env : Env) (pf : FloatParser) (v : Fields) :
    populateStruct env pf (populateStruct env pf v).1 = populateStruct env pf v := by
  induction v with
  | nil => rfl
  | leaf f typ h field rest ih =>
    rw [populateStruct_leaf]
    rcases hp : processField env pf f typ field with ⟨d, _ | e⟩
    · simp only
      rw [populateStruct_leaf, processField_idem env pf f typ field d none hp]
      simp only
      rw [ih]
    · simp only
      rw [populateStruct_leaf, processField_idem env pf f typ field d (some e) hp]
  | nested f fs rest ih1 ih2 =>
    rw [populateStruct]
    rcases hp : populateStruct env pf fs with ⟨fs1, _ | e⟩
    · rw [hp] at ih1
      simp only at ih1 ⊢
      rcases hr : populateStruct env pf rest with ⟨rest1, r⟩
      rw [hr] at ih2
      simp only at ih2 ⊢
      rw [populateStruct, ih1]
      simp only
      rw [ih2]
    · rw [hp] at ih1
      simp only at ih1 ⊢
      rw [populateStruct, ih1]

theorem splitChars_append_sep_any (sep : Char) (xs ys : List Char) :
    splitChars sep (xs ++ sep :: ys) = splitChars sep xs ++ splitChars sep ys := by
  induction xs with
  | nil => simp [splitChars]
  | cons c cs ih =>
    rw [List.cons_append, splitChars, splitChars, ih]
    by_cases hc : c = sep
    · simp [hc]
    · simp only [hc, if_false]
      rcases hs : splitChars sep cs with _ | ⟨seg, segs⟩
      · exact absurd hs (splitChars_ne_nil sep cs)
      · rfl

theorem Split_mem_empty (raw : String)
    (hraw : (∃ r, raw.data = ',' :: r) ∨ (∃ a, raw.data = a ++ [',']) ∨
      ∃ a b, raw.data = a ++ ',' :: ',' :: b) : "" ∈ Split raw ',' := by
  unfold Split
  refine List.mem_map.mpr ⟨[], ?_, rfl⟩
  rcases hraw with ⟨r, h⟩ | ⟨a, h⟩ | ⟨a, b, h⟩
  · rw [h, splitChars]; simp
  · rw [h, splitChars_append_sep_any]; simp [splitChars]
  · rw [h, splitChars_append_sep_any, splitChars]; simp

theorem setFieldValue_slice_fails (pf : FloatParser) (elem : GoType) (d : Data) (raw : String)
    (h : ∃ seg ∈ Split raw ',', (setFieldValue pf elem (zero elem) seg).2 ≠ none) :
    ∃ e, setFieldValue pf (GoType.slice elem) d raw = (d, some e) := by
  have herr := (setElems_err_iff (setFieldValue pf elem) (zero elem) (Split raw ',')).mpr h
  simp only [setFieldValue]
  rcases hr : setElems (setFieldValue pf elem)
    (List.replicate (Split raw ',').length (zero elem)) (Split raw ',') with ⟨out, _ | e⟩
  · rw [hr] at herr; exact absurd rfl herr
  · exact ⟨e, rfl⟩

theorem setFieldValue_string_slice (pf : FloatParser) (d : Data) (raw : String) :
    setFieldValue pf (GoType.slice GoType.string) d raw =
      (Data.slice ((Split raw ',').map Data.string), none) := by
  have hok := (setElems_ok_iff (setFieldValue pf GoType.string) (zero GoType.string)
    (Split raw ',') ((Split raw ',').map Data.string)).mpr (by
      rw [List.forall₂_map_right_iff, List.forall₂_same]
      intro x _
      rfl)
  simp only [setFieldValue] at hok ⊢
  rw [hok]

theorem SetInt_of_range (b : Nat) (hb : 1 ≤ b) (v : Int) (h1 : -(2 ^ (b - 1) : Int) ≤ v)
    (h2 : v ≤ 2 ^ (b - 1) - 1) : SetInt b v = Data.int v := by
  have hpow : (2 : Int) ^ b = 2 * 2 ^ (b - 1) := by
    have : b = (b - 1) + 1 := by omega
    conv_lhs => rw [this]
    rw [pow_succ]; ring
  unfold SetInt
  rw [hpow, Int.emod_eq_of_lt (by omega) (by omega)]
  simp

theorem SetUint_of_range (b n : Nat) (h : n ≤ 2 ^ b - 1) : SetUint b n = Data.uint n := by
  have hpos : 1 ≤ 2 ^ b := Nat.one_le_two_pow
  unfold SetUint
  rw [Nat.mod_eq_of_lt (by omega)]

theorem setFieldValue_int_ok (pf : FloatParser) (k : IntKind) (d : Data) (s : String)
    (v : Int) (hlit : intLiteral? s = some v) (h1 : -(2 ^ (k.Bits - 1) : Int) ≤ v)
    (h2 : v ≤ 2 ^ (k.Bits - 1) - 1) :
    setFieldValue pf (GoType.int k) d s = (Data.int v, none) := by
  obtain ⟨hb2, hb⟩ := IntKind_Bits_bounds k
  have hp := (ParseInt_ok_iff s k.Bits hb2 hb v).mpr ⟨hlit, h1, h2⟩
  simp only [setFieldValue, hp]
  rw [SetInt_of_range k.Bits (by omega) v h1 h2]

theorem setFieldValue_uint_ok (pf : FloatParser) (k : UintKind) (d : Data) (s : String)
    (n : Nat) (hlit : natLiteral? s.data = some n) (h : n ≤ 2 ^ k.Bits - 1) :
    setFieldValue pf (GoType.uint k) d s = (Data.uint n, none) := by
  obtain ⟨hb2, hb⟩ := UintKind_Bits_bounds k
  have hp := (ParseUint_ok_iff s k.Bits (by omega) hb n).mpr ⟨hlit, h⟩
  simp only [setFieldValue, hp]
  rw [SetUint_of_range k.Bits n h]

theorem intLiteral_of_natLiteral (s : String) (n : Nat) (h : natLiteral? s.data = some n) :
    intLiteral? s = some (n : Int) := by
  unfold intLiteral?
  have hcond : s.data ≠ [] ∧ ∀ c ∈ s.data, isDigit c := by
    unfold natLiteral? at h
    by_contra hc
    rw [if_neg hc] at h
    simp at h
  split
  · rename_i r heq
    have hd := hcond.2 '+' (by rw [heq]; exact List.mem_cons_self _ _)
    exact absurd hd (by decide)
  · rename_i r heq
    have hd := hcond.2 '-' (by rw [heq]; exact List.mem_cons_self _ _)
    exact absurd hd (by decide)
  · rw [h]; rfl

/-! ## The code against the conversion stated apart from it -/

theorem specCoerceAll_eq_some_iff (f : String → Option Data) (ss : List String) :
    ∀ out, specCoerceAll f ss = some out ↔ List.Forall₂ (fun s x => f s = some x) ss out := by
  induction ss with
  | nil =>
    intro out
    simp only [specCoerceAll, Option.some.injEq]
    constructor
    · intro h; subst h; exact List.Forall₂.nil
    · intro h; cases h; rfl
  | cons s ss ih =>
    intro out
    rw [specCoerceAll]
    constructor
    · intro h
      rcases hs : f s with _ | v
      · rw [hs] at h; simp at h
      · rcases hr : specCoerceAll f ss with _ | vs
        · rw [hs, hr] at h; simp at h
        · rw [hs, hr] at h
          simp only [Option.some.injEq] at h
          subst h
          exact List.Forall₂.cons hs ((ih vs).mp hr)
    · intro h
      cases h with
      | cons h1 h2 =>
        rw [h1, (ih _).mpr h2]

theorem setFieldValue_ok_iff_specCoerce (pf : FloatParser) (typ : GoType) :
    ∀ (d : Data) (raw : String) (v : Data),
      setFieldValue pf typ d raw = (v, none) ↔ specCoerce pf typ raw = some v := by
  induction typ with
  | string =>
    intro d raw v
    simp [setFieldValue, specCoerce]
  | int k =>
    intro d raw v
    obtain ⟨hb2, hb⟩ := IntKind_Bits_bounds k
    constructor
    · intro h
      simp only [setFieldValue] at h
      rcases hp : ParseInt raw k.Bits with ⟨i, _ | e⟩
      · rw [hp] at h
        simp only [Prod.mk.injEq, and_true] at h
        obtain ⟨hlit, h1, h2⟩ := (ParseInt_ok_iff raw k.Bits hb2 hb i).mp hp
        rw [SetInt_of_range k.Bits (by omega) i h1 h2] at h
        simp only [specCoerce, hlit]
        rw [if_pos ⟨h1, h2⟩, h]
      · rw [hp] at h; simp at h
    · intro h
      simp only [specCoerce] at h
      rcases hlit : intLiteral? raw with _ | i
      · rw [hlit] at h; simp at h
      · rw [hlit] at h
        simp only at h
        by_cases hr : -(2 ^ (k.Bits - 1) : Int) ≤ i ∧ i ≤ 2 ^ (k.Bits - 1) - 1
        · rw [if_pos hr] at h
          simp only [Option.some.injEq] at h
          rw [← h]
          exact setFieldValue_int_ok pf k d raw i hlit hr.1 hr.2
        · rw [if_neg hr] at h; simp at h
  | uint k =>
    intro d raw v
    obtain ⟨hb2, hb⟩ := UintKind_Bits_bounds k
    constructor
    · intro h
      simp only [setFieldValue] at h
      rcases hp : ParseUint raw k.Bits with ⟨n, _ | e⟩
      · rw [hp] at h
        simp only [Prod.mk.injEq, and_true] at h
        obtain ⟨hlit, hle⟩ := (ParseUint_ok_iff raw k.Bits (by omega) hb n).mp hp
        rw [SetUint_of_range k.Bits n hle] at h
        simp only [specCoerce, hlit]
        rw [if_pos hle, h]
      · rw [hp] at h; simp at h
    · intro h
      simp only [specCoerce] at h
      rcases hlit : natLiteral? raw.data with _ | n
      · rw [hlit] at h; simp at h
      · rw [hlit] at h
        simp only at h
        by_cases hr : n ≤ 2 ^ k.Bits - 1
        · rw [if_pos hr] at h
          simp only [Option.some.injEq] at h
          rw [← h]
          exact setFieldValue_uint_ok pf k d raw n hlit hr
        · rw [if_neg hr] at h; simp at h
  | bool =>
    intro d raw v
    simp only [setFieldValue, ParseBool, specCoerce, List.mem_cons, List.mem_singleton,
      List.mem_nil_iff, or_false]
    by_cases h1 : raw = "1" ∨ raw = "t" ∨ raw = "T" ∨ raw = "TRUE" ∨ raw = "true" ∨ raw = "True"
    · simp [h1]
    · by_cases h2 : raw = "0" ∨ raw = "f" ∨ raw = "F" ∨ raw = "FALSE" ∨ raw = "false" ∨
          raw = "False"
      · simp [h1, h2]
      · simp [h1, h2, syntaxError]
  | float k =>
    intro d raw v
    simp only [setFieldValue, ParseFloat, specCoerce]
    rcases hp : pf raw k.Bits with ⟨x, _ | e⟩ <;> simp
  | slice elem ih =>
    intro d raw v
    constructor
    · intro h
      obtain ⟨xs, hv, _, hall⟩ := setFieldValue_slice_ok pf elem d v raw h
      have hspec : List.Forall₂ (fun s x => specCoerce pf elem s = some x) (Split raw ',') xs :=
        List.Forall₂.imp (fun s x hx => (ih (zero elem) s x).mp hx) hall
      simp only [specCoerce]
      rw [(specCoerceAll_eq_some_iff _ _ xs).mpr hspec, hv]
      rfl
    · intro h
      simp only [specCoerce, Option.map_eq_some'] at h
      obtain ⟨xs, hxs, hv⟩ := h
      have hspec := (specCoerceAll_eq_some_iff _ _ xs).mp hxs
      have hall : List.Forall₂ (fun s x => setFieldValue pf elem (zero elem) s = (x, none))
          (Split raw ',') xs :=
        List.Forall₂.imp (fun s x hx => (ih (zero elem) s x).mpr hx) hspec
      have hok := (setElems_ok_iff (setFieldValue pf elem) (zero elem) (Split raw ',') xs).mpr hall
      simp only [setFieldValue, hok]
      rw [hv]
  | struct =>
    intro d raw v
    simp [setFieldValue, specCoerce]
  | other k =>
    intro d raw v
    simp [setFieldValue, specCoerce]

theorem specCoerce_none_iff (pf : FloatParser) (typ : GoType) (d : Data) (raw : String) :
    specCoerce pf typ raw = none ↔ (setFieldValue pf typ d raw).2 ≠ none := by
  rcases hr : setFieldValue pf typ d raw with ⟨v, _ | e⟩
  · have := (setFieldValue_ok_iff_specCoerce pf typ d raw v).mp hr
    simp [this]
  · simp only [ne_eq, reduceCtorEq, not_false_eq_true, iff_true]
    cases hs : specCoerce pf typ raw with
    | none => rfl
    | some w =>
      have := (setFieldValue_ok_iff_specCoerce pf typ d raw w).mpr hs
      rw [hr] at this
      simp at this

theorem setElems_first_err (set : Data → String → Data × Option GoError) (z : Data)
    (vals : List String) (e : GoError)
    (h : (setElems set (List.replicate vals.length z) vals).2 = some e) :
    ∃ pre seg post, vals = pre ++ seg :: post ∧ (∀ s ∈ pre, (set z s).2 = none) ∧
      (set z seg).2 = some e := by
  induction vals with
  | nil => simp [setElems] at h
  | cons s vals ih =>
    simp only [List.length_cons, List.replicate_succ, setElems] at h
    rcases hs : set z s with ⟨v, _ | e1⟩
    · rw [hs] at h
      simp only at h
      obtain ⟨pre, seg, post, hv, hpre, hseg⟩ := ih h
      refine ⟨s :: pre, seg, post, by rw [hv]; rfl, ?_, hseg⟩
      intro t ht
      rcases List.mem_cons.mp ht with rfl | ht
      · rw [hs]
      · exact hpre t ht
    · rw [hs] at h
      simp only [Option.some.injEq] at h
      exact ⟨[], s, vals, rfl, fun t ht => (by cases ht), by rw [hs, ← h]⟩

theorem setFieldValue_err_indep (pf : FloatParser) (typ : GoType) (d d0 d1 : Data)
    (s : String) (e : GoError) (h : setFieldValue pf typ d s = (d1, some e)) :
    setFieldValue pf typ d0 s = (d0, some e) := by
  cases typ <;> simp only [setFieldValue] at h ⊢
  case string => simp at h
  all_goals first
    | (simp only [Prod.mk.injEq, Option.some.injEq] at h
       rw [h.2])
    | (split at h
       · simp only [Prod.mk.injEq, Option.some.injEq] at h
         rw [h.2]
       · simp at h)

theorem ConversionError_slice (elem : GoType) (num : String) (e : GoError) :
    ConversionError (GoType.slice elem) num e ↔ ConversionError elem num e := Iff.rfl

theorem setFieldValue_err_num (pf : FloatParser) (typ : GoType) :
    ∀ (d d1 : Data) (raw : String) (e : GoError), setFieldValue pf typ d raw = (d1, some e) →
      (typ.isSlice = false → ConversionError typ raw e) ∧
      (∀ elem, typ = GoType.slice elem →
        ∃ pre seg post, Split raw ',' = pre ++ seg :: post ∧
          (∀ s ∈ pre, (setFieldValue pf elem (zero elem) s).2 = none) ∧
          (setFieldValue pf elem (zero elem) seg).2 = some e ∧
          ConversionError typ seg e) := by
  induction typ with
  | string => intro d d1 raw e h; simp [setFieldValue] at h
  | int k =>
    intro d d1 raw e h
    refine ⟨fun _ => ?_, fun elem helem => by cases helem⟩
    rcases setFieldValue_err_shape pf _ d d1 raw e h with ⟨fn, num, k1, he, hp, hn, _⟩ | ⟨_, hp, _⟩
    · rw [hn rfl] at he
      exact Or.inl ⟨fn, k1, hp, he⟩
    · simp [GoType.parser] at hp
  | uint k =>
    intro d d1 raw e h
    refine ⟨fun _ => ?_, fun elem helem => by cases helem⟩
    rcases setFieldValue_err_shape pf _ d d1 raw e h with ⟨fn, num, k1, he, hp, hn, _⟩ | ⟨_, hp, _⟩
    · rw [hn rfl] at he
      exact Or.inl ⟨fn, k1, hp, he⟩
    · simp [GoType.parser] at hp
  | bool =>
    intro d d1 raw e h
    refine ⟨fun _ => ?_, fun elem helem => by cases helem⟩
    rcases setFieldValue_err_shape pf _ d d1 raw e h with ⟨fn, num, k1, he, hp, hn, _⟩ | ⟨_, hp, _⟩
    · rw [hn rfl] at he
      exact Or.inl ⟨fn, k1, hp, he⟩
    · simp [GoType.parser] at hp
  | float k =>
    intro d d1 raw e h
    refine ⟨fun _ => ?_, fun elem helem => by cases helem⟩
    rcases setFieldValue_err_shape pf _ d d1 raw e h with ⟨fn, num, k1, he, hp, hn, _⟩ | ⟨_, hp, _⟩
    · rw [hn rfl] at he
      exact Or.inl ⟨fn, k1, hp, he⟩
    · simp [GoType.parser] at hp
  | slice elem ih =>
    intro d d1 raw e h
    refine ⟨fun hs => by simp [GoType.isSlice] at hs, ?_⟩
    intro elem0 helem
    simp only [GoType.slice.injEq] at helem
    subst helem
    simp only [setFieldValue] at h
    rcases hr : setElems (setFieldValue pf elem)
      (List.replicate (Split raw ',').length (zero elem)) (Split raw ',') with ⟨out, _ | e1⟩
    · rw [hr] at h; simp at h
    · rw [hr] at h
      simp only [Prod.mk.injEq, Option.some.injEq] at h
      obtain ⟨_, rfl⟩ := h
      obtain ⟨pre, seg, post, hsplit, hpre, hseg⟩ :=
        setElems_first_err (setFieldValue pf elem) (zero elem) (Split raw ',') e1 (by rw [hr])
      refine ⟨pre, seg, post, hsplit, hpre, hseg, ?_⟩
      rw [ConversionError_slice]
      have hsegmem : seg ∈ Split raw ',' := by rw [hsplit]; simp
      have hnc := Split_mem_not_sep ',' raw seg hsegmem
      obtain ⟨ih1, ih2⟩ := ih (zero elem) (setFieldValue pf elem (zero elem) seg).1 seg e1
        (by rw [← hseg])
      cases elem with
      | slice elem2 =>
        obtain ⟨pre1, seg1, post1, hsplit1, _, _, hce⟩ := ih2 elem2 rfl
        rw [Split_of_not_mem ',' seg hnc] at hsplit1
        cases pre1 with
        | nil =>
          simp only [List.nil_append, List.cons.injEq] at hsplit1
          rw [hsplit1.1]
          exact hce
        | cons x xs =>
          have := congrArg List.length hsplit1
          simp at this
      | string => exact ih1 rfl
      | int k => exact ih1 rfl
      | uint k => exact ih1 rfl
      | bool => exact ih1 rfl
      | float k => exact ih1 rfl
      | struct => exact ih1 rfl
      | other k => exact ih1 rfl
  | struct =>
    intro d d1 raw e h
    refine ⟨fun _ => ?_, fun elem helem => by cases helem⟩
    simp only [setFieldValue, Prod.mk.injEq, Option.some.injEq] at h
    exact Or.inr ⟨"struct", rfl, h.2.symm⟩
  | other k =>
    intro d d1 raw e h
    refine ⟨fun _ => ?_, fun elem helem => by cases helem⟩
    simp only [setFieldValue, Prod.mk.injEq, Option.some.injEq] at h
    exact Or.inr ⟨k.String, rfl, h.2.symm⟩

/-! ## The claims -/

/-- C1: when `FillConfig` succeeds on a pointer to a struct, the non-struct
fields of the result are, position by position in depth-first order, the
fields of the argument, and each one whose key has a non-empty environment
value holds the value that this string denotes at the type of the field
(`specCoerce`: the string itself, the in-range value of the base-10 literal,
the boolean of the vocabulary, the sequence of the values of the segments),
whatever the contents of the field were before the call. -/
theorem C1_fill_assigns_converted_entries (env : Env) (pf : FloatParser) (v v1 : Fields)
    (h : FillConfig env pf (Cfg.ptrToStruct v) = (Cfg.ptrToStruct v1, none)) :
    List.Forall₂
      (fun a b => b.f = a.f ∧ b.typ = a.typ ∧
        (Getenv env a.f.Tag.env ≠ "" →
          specCoerce pf a.typ (Getenv env a.f.Tag.env) = some b.field ∧
          ∀ d0, setFieldValue pf a.typ d0 (Getenv env a.f.Tag.env) = (b.field, none)))
      v.leaves v1.leaves := by
  rw [FillConfig_ptrToStruct] at h
  simp only [Prod.mk.injEq, Cfg.ptrToStruct.injEq] at h
  obtain ⟨h1, h2⟩ := h
  obtain ⟨hl, he⟩ := populateStruct_walk env pf v
  rw [h1] at hl
  rw [h2] at he
  have hw : walk env pf v.leaves = (v1.leaves, none) := by
    rw [hl, he]
  refine List.Forall₂.imp ?_ (walk_ok env pf _ _ hw)
  rintro a b ⟨hf, ht, hp⟩
  refine ⟨hf, ht, ?_⟩
  intro hne
  rcases processField_ok_cases env pf _ _ _ _ hp with ⟨habs, _⟩ | ⟨_, hset⟩
  · exact absurd habs hne
  · exact ⟨(setFieldValue_ok_iff_specCoerce pf _ _ _ _).mp hset,
      fun d0 => setFieldValue_ok_indep pf _ _ d0 _ _ hset⟩

/-- C1, the scenario of the specification and the test of the package: with
`NAME=svc`, `TAGS=a,b,c` and no `PORT`, the call succeeds with `Name = "svc"`,
`Port = 0` and `Tags = ["a", "b", "c"]`; and on `Config{}` with the
environment of `TestFillConfig` the call succeeds with `expectedCfg`, the
nested fields included. -/
theorem C1_fill_assigns_converted_entries_witness :
    (FillConfig (Env.ofList [("NAME", "svc"), ("TAGS", "a,b,c")]) rejectFloats
        (Cfg.ptrToStruct (nameportTags (Data.string "") (Data.int 0) (Data.slice []))) =
      (Cfg.ptrToStruct (nameportTags (Data.string "svc") (Data.int 0)
        (Data.slice [Data.string "a", Data.string "b", Data.string "c"])), none) ∧
    List.Forall₂
      (fun a b => b.f = a.f ∧ b.typ = a.typ ∧
        (Getenv (Env.ofList [("NAME", "svc"), ("TAGS", "a,b,c")]) a.f.Tag.env ≠ "" →
          specCoerce rejectFloats a.typ
              (Getenv (Env.ofList [("NAME", "svc"), ("TAGS", "a,b,c")]) a.f.Tag.env) =
            some b.field ∧
          ∀ d0, setFieldValue rejectFloats a.typ d0
            (Getenv (Env.ofList [("NAME", "svc"), ("TAGS", "a,b,c")]) a.f.Tag.env) =
              (b.field, none)))
      (nameportTags (Data.string "") (Data.int 0) (Data.slice [])).leaves
      (nameportTags (Data.string "svc") (Data.int 0)
        (Data.slice [Data.string "a", Data.string "b", Data.string "c"])).leaves) ∧
    (FillConfig testEnv testFloats (Cfg.ptrToStruct testConfigZero) =
      (Cfg.ptrToStruct testConfigExpected, none) ∧
    List.Forall₂
      (fun a b => b.f = a.f ∧ b.typ = a.typ ∧
        (Getenv testEnv a.f.Tag.env ≠ "" →
          specCoerce testFloats a.typ (Getenv testEnv a.f.Tag.env) = some b.field ∧
          ∀ d0, setFieldValue testFloats a.typ d0 (Getenv testEnv a.f.Tag.env) =
            (b.field, none)))
      testConfigZero.leaves testConfigExpected.leaves) :=
  ⟨⟨rfl, C1_fill_assigns_converted_entries _ _ _ _ rfl⟩,
    ⟨rfl, C1_fill_assigns_converted_entries _ _ _ _ rfl⟩⟩

/-- C2, as stated, fails: in the shape `{Port int "PORT"; Name string required
"NAME"}` with `PORT=x` and no `NAME`, the required field `Name` has no
environment value, yet the error `FillConfig` returns is the one of
`strconv.ParseInt` for `Port`, not the missing-variable error naming `NAME`. -/
theorem C2_counterexample :
    (portName (Data.int 0) (Data.string "")).leaves =
        [⟨⟨"Port", ⟨"PORT", ""⟩⟩, GoType.int IntKind.Int, Data.int 0⟩,
         ⟨⟨"Name", ⟨"NAME", "true"⟩⟩, GoType.string, Data.string ""⟩] ∧
      Getenv (Env.ofList [("PORT", "x")]) "NAME" = "" ∧
      (FillConfig (Env.ofList [("PORT", "x")]) rejectFloats
          (Cfg.ptrToStruct (portName (Data.int 0) (Data.string "")))).2 =
        some (GoError.NumError "ParseInt" "x" StrconvErr.ErrSyntax) ∧
      (FillConfig (Env.ofList [("PORT", "x")]) rejectFloats
          (Cfg.ptrToStruct (portName (Data.int 0) (Data.string "")))).2 ≠
        some (errorsNew ("missing required environment variable: " ++ "NAME")) := by
  refine ⟨rfl, rfl, rfl, ?_⟩
  have h : (FillConfig (Env.ofList [("PORT", "x")]) rejectFloats
      (Cfg.ptrToStruct (portName (Data.int 0) (Data.string "")))).2 =
      some (GoError.NumError "ParseInt" "x" StrconvErr.ErrSyntax) := rfl
  rw [h]
  simp [errorsNew]

/-- C2, amended: a non-struct field tagged `required:"true"` whose key has no
or an empty environment value makes `FillConfig` return an error, whatever the
other fields and the environment are; the error is the missing-variable error
naming the key of that field whenever no field before it in depth-first order
fails, whatever the fields after it are. -/
theorem C2_required_missing_fails (env : Env) (pf : FloatParser) (v : Fields)
    (pre post : List Leaf) (a : Leaf) (hl : v.leaves = pre ++ a :: post)
    (hreq : a.f.Tag.required = "true") (habs : Getenv env a.f.Tag.env = "") :
    (FillConfig env pf (Cfg.ptrToStruct v)).2 ≠ none ∧
      ((∀ x ∈ pre, (processField env pf x.f x.typ x.field).2 = none) →
        (FillConfig env pf (Cfg.ptrToStruct v)).2 =
          some (errorsNew ("missing required environment variable: " ++ a.f.Tag.env))) := by
  have hmiss := processField_missing env pf a.f a.typ a.field hreq habs
  rw [FillConfig_ptrToStruct]
  simp only
  rw [(populateStruct_walk env pf v).2, hl]
  constructor
  · apply walk_fails env pf _ a (by simp)
    rw [hmiss]; simp
  · intro hpre
    apply walk_first_error env pf pre a post _ hpre
    rw [hmiss]

/-- C2, the scenario of the specification: the shape `Name`/`Port`/`Tags` with
the empty environment fails with the missing-variable error for `NAME`. -/
theorem C2_required_missing_fails_witness :
    (FillConfig (Env.ofList []) rejectFloats
        (Cfg.ptrToStruct (nameportTags (Data.string "") (Data.int 0) (Data.slice [])))).2 ≠
      none ∧
    ((∀ x ∈ ([] : List Leaf),
        (processField (Env.ofList []) rejectFloats x.f x.typ x.field).2 = none) →
      (FillConfig (Env.ofList []) rejectFloats
          (Cfg.ptrToStruct (nameportTags (Data.string "") (Data.int 0) (Data.slice [])))).2 =
        some (errorsNew ("missing required environment variable: " ++ "NAME"))) :=
  C2_required_missing_fails (Env.ofList []) rejectFloats
    (nameportTags (Data.string "") (Data.int 0) (Data.slice [])) []
    [⟨⟨"Port", ⟨"PORT", ""⟩⟩, GoType.int IntKind.Int, Data.int 0⟩,
     ⟨⟨"Tags", ⟨"TAGS", ""⟩⟩, GoType.slice GoType.string, Data.slice []⟩]
    ⟨⟨"Name", ⟨"NAME", "true"⟩⟩, GoType.string, Data.string ""⟩ rfl rfl rfl

/-- C3: a non-struct field that is not tagged `required:"true"` and whose key
has no or an empty environment value causes no error and is not written,
whatever its type: where the loop reaches it (in the struct passed or in a
nested one) the outcome is that of the remaining fields with the field as it
was, and wherever the field stands in the instance it holds its previous
contents in the instance `FillConfig` leaves, whether the call succeeds or
not. -/
theorem C3_optional_absent_untouched (env : Env) (pf : FloatParser) (f : StructField)
    (typ : GoType) (h : typ.isStruct = false) (field : Data)
    (hreq : f.Tag.required ≠ "true") (habs : Getenv env f.Tag.env = "") :
    (∀ rest : Fields, populateStruct env pf (Fields.leaf f typ h field rest) =
        (Fields.leaf f typ h field (populateStruct env pf rest).1,
          (populateStruct env pf rest).2)) ∧
      (∀ (v v1 : Fields) (r : Option GoError) (pre post : List Leaf),
        v.leaves = pre ++ ⟨f, typ, field⟩ :: post →
        FillConfig env pf (Cfg.ptrToStruct v) = (Cfg.ptrToStruct v1, r) →
        ∃ pre1 post1, v1.leaves = pre1 ++ ⟨f, typ, field⟩ :: post1 ∧
          pre1.length = pre.length) := by
  have hp := processField_absent env pf f typ field hreq habs
  constructor
  · intro rest
    rw [populateStruct_leaf, hp]
  · intro v v1 r pre post hl hfill
    rw [FillConfig_ptrToStruct] at hfill
    simp only [Prod.mk.injEq, Cfg.ptrToStruct.injEq] at hfill
    rw [← hfill.1, (populateStruct_walk env pf v).1, hl]
    exact walk_keeps env pf pre post ⟨f, typ, field⟩ (by rw [hp])

/-- C3 at the field `Port` of the shape `Name`/`Port`/`Tags`, with `NAME=svc`
and `TAGS=a,b,c` set and `PORT` not set. -/
theorem C3_optional_absent_untouched_witness :
    (⟨"Port", ⟨"PORT", ""⟩⟩ : StructField).Tag.required ≠ "true" ∧
    Getenv (Env.ofList [("NAME", "svc"), ("TAGS", "a,b,c")]) "PORT" = "" ∧
    ((∀ rest : Fields,
        populateStruct (Env.ofList [("NAME", "svc"), ("TAGS", "a,b,c")]) rejectFloats
            (Fields.leaf ⟨"Port", ⟨"PORT", ""⟩⟩ (GoType.int IntKind.Int) rfl (Data.int 7)
              rest) =
          (Fields.leaf ⟨"Port", ⟨"PORT", ""⟩⟩ (GoType.int IntKind.Int) rfl (Data.int 7)
            (populateStruct (Env.ofList [("NAME", "svc"), ("TAGS", "a,b,c")]) rejectFloats
              rest).1,
            (populateStruct (Env.ofList [("NAME", "svc"), ("TAGS", "a,b,c")]) rejectFloats
              rest).2)) ∧
      (∀ (v v1 : Fields) (r : Option GoError) (pre post : List Leaf),
        v.leaves = pre ++ ⟨⟨"Port", ⟨"PORT", ""⟩⟩, GoType.int IntKind.Int, Data.int 7⟩ :: post →
        FillConfig (Env.ofList [("NAME", "svc"), ("TAGS", "a,b,c")]) rejectFloats
          (Cfg.ptrToStruct v) = (Cfg.ptrToStruct v1, r) →
        ∃ pre1 post1,
          v1.leaves =
            pre1 ++ ⟨⟨"Port", ⟨"PORT", ""⟩⟩, GoType.int IntKind.Int, Data.int 7⟩ :: post1 ∧
          pre1.length = pre.length)) :=
  ⟨by decide, rfl,
    C3_optional_absent_untouched (Env.ofList [("NAME", "svc"), ("TAGS", "a,b,c")])
      rejectFloats ⟨"Port", ⟨"PORT", ""⟩⟩ (GoType.int IntKind.Int) rfl (Data.int 7)
      (by decide) rfl⟩

/-- C4, as stated, fails for a segment that contains a comma and for the empty
sequence: the one-element sequence `["a,b"]` joins to `a,b`, which a
`[]string` field receives as the two elements `"a"` and `"b"`, although the
string field conversion of `"a,b"` is `"a,b"`; and the empty sequence joins to
the empty string, which `setFieldValue` splits into one (empty) segment. -/
theorem C4_counterexample :
    (Join ["a,b"] ',' = "a,b" ∧
      setFieldValue rejectFloats GoType.string (zero GoType.string) "a,b" =
        (Data.string "a,b", none) ∧
      setFieldValue rejectFloats (GoType.slice GoType.string) (Data.slice []) (Join ["a,b"] ',') =
        (Data.slice [Data.string "a", Data.string "b"], none)) ∧
    (Join [] ',' = "" ∧
      setFieldValue rejectFloats (GoType.slice GoType.string) (Data.slice []) (Join [] ',') =
        (Data.slice [Data.string ""], none)) :=
  ⟨⟨rfl, rfl, rfl⟩, rfl, rfl⟩

/-- C4, amended: for every element type and every non-empty sequence of
strings none of which contains a comma, `setFieldValue` on the comma-joined
string stores exactly the sequence of the values that `setFieldValue` converts
each string to for the element type, in the same order and of the same
length, and it fails exactly when the conversion of one of the strings
fails. -/
theorem C4_joined_sequence_elementwise (pf : FloatParser) (T : GoType) (d : Data)
    (ss : List String) (hne : ss ≠ []) (hnc : ∀ s ∈ ss, ',' ∉ s.data) :
    (∀ out, setFieldValue pf (GoType.slice T) d (Join ss ',') = (Data.slice out, none) ↔
        List.Forall₂ (fun s v => setFieldValue pf T (zero T) s = (v, none)) ss out) ∧
      (∀ v, setFieldValue pf (GoType.slice T) d (Join ss ',') = (v, none) →
        ∃ out, v = Data.slice out ∧ out.length = ss.length) ∧
      ((setFieldValue pf (GoType.slice T) d (Join ss ',')).2 ≠ none ↔
        ∃ s ∈ ss, (setFieldValue pf T (zero T) s).2 ≠ none) := by
  have hsplit := Split_Join ',' ss hne hnc
  have hok := setElems_ok_iff (setFieldValue pf T) (zero T) ss
  have herr := setElems_err_iff (setFieldValue pf T) (zero T) ss
  simp only [setFieldValue, hsplit]
  rcases hr : setElems (setFieldValue pf T) (List.replicate ss.length (zero T)) ss
    with ⟨out1, _ | e⟩
  · rw [hr] at herr
    have hall := (hok out1).mp hr
    refine ⟨?_, ?_, ?_⟩
    · intro out
      simp only [Prod.mk.injEq, Data.slice.injEq, and_true]
      constructor
      · intro h; subst h; exact hall
      · intro h
        have := (hok out).mpr h
        rw [hr] at this
        simp only [Prod.mk.injEq, and_true] at this
        exact this
    · intro v hv
      simp only [Prod.mk.injEq, and_true] at hv
      exact ⟨out1, hv.symm, hall.length_eq.symm⟩
    · simpa using herr
  · rw [hr] at herr
    refine ⟨?_, ?_, ?_⟩
    · intro out
      simp only [Prod.mk.injEq, reduceCtorEq, and_false, false_iff]
      intro h
      have := (hok out).mpr h
      rw [hr] at this
      simp at this
    · intro v hv
      simp at hv
    · simpa using herr

/-- C4 at the value of `INT_SLICE` in the test of the package: `1,2,3` into
a `[]int` field. -/
theorem C4_joined_sequence_elementwise_witness :
    ((["1", "2", "3"] : List String) ≠ [] ∧
      ∀ s ∈ (["1", "2", "3"] : List String), ',' ∉ s.data) ∧
    setFieldValue rejectFloats (GoType.slice (GoType.int IntKind.Int)) (Data.slice [])
        (Join ["1", "2", "3"] ',') =
      (Data.slice [Data.int 1, Data.int 2, Data.int 3], none) :=
  ⟨⟨by decide, by decide⟩,
    ((C4_joined_sequence_elementwise rejectFloats (GoType.int IntKind.Int) (Data.slice [])
      ["1", "2", "3"] (by decide) (by decide)).1 [Data.int 1, Data.int 2, Data.int 3]).mpr
      (List.Forall₂.cons rfl (List.Forall₂.cons rfl (List.Forall₂.cons rfl List.Forall₂.nil)))⟩

/-- C5: the conversions of the primitive types invert the canonical rendering.
For every signed kind and every integer in the range of its width, converting
the base-10 rendering of the integer stores that integer; the same for every
unsigned kind and every natural number below `2 ^ Bits`; a string field
receives any string verbatim; `"true"` and `"false"` store `true` and
`false`. -/
theorem C5_primitive_round_trip (pf : FloatParser) (d : Data) :
    (∀ (k : IntKind) (v : Int), -(2 ^ (k.Bits - 1) : Int) ≤ v → v ≤ 2 ^ (k.Bits - 1) - 1 →
        setFieldValue pf (GoType.int k) d (FormatInt v) = (Data.int v, none)) ∧
      (∀ (k : UintKind) (n : Nat), n ≤ 2 ^ k.Bits - 1 →
        setFieldValue pf (GoType.uint k) d (FormatUint n) = (Data.uint n, none)) ∧
      (∀ s : String, setFieldValue pf GoType.string d s = (Data.string s, none)) ∧
      setFieldValue pf GoType.bool d "true" = (Data.bool true, none) ∧
      setFieldValue pf GoType.bool d "false" = (Data.bool false, none) := by
  refine ⟨?_, ?_, ?_, rfl, rfl⟩
  · intro k v h1 h2
    exact setFieldValue_int_ok pf k d _ v (intLiteral_FormatInt v) h1 h2
  · intro k n h
    exact setFieldValue_uint_ok pf k d _ n (natLiteral_toDigits n) h
  · intro s
    rfl

/-- C5 at the least `int8`, the greatest `uint8` and their renderings. -/
theorem C5_primitive_round_trip_witness :
    (FormatInt (-128) = "-128" ∧ -(2 ^ (IntKind.Int8.Bits - 1) : Int) ≤ -128 ∧
      (-128 : Int) ≤ 2 ^ (IntKind.Int8.Bits - 1) - 1 ∧
      setFieldValue rejectFloats (GoType.int IntKind.Int8) (Data.int 5) (FormatInt (-128)) =
        (Data.int (-128), none)) ∧
    (FormatUint 255 = "255" ∧ 255 ≤ 2 ^ UintKind.Uint8.Bits - 1 ∧
      setFieldValue rejectFloats (GoType.uint UintKind.Uint8) (Data.uint 5) (FormatUint 255) =
        (Data.uint 255, none)) :=
  ⟨⟨by decide, by decide, by decide,
      (C5_primitive_round_trip rejectFloats (Data.int 5)).1 IntKind.Int8 (-128)
        (by decide) (by decide)⟩,
    ⟨by decide, by decide,
      (C5_primitive_round_trip rejectFloats (Data.uint 5)).2.1 UintKind.Uint8 255
        (by decide)⟩⟩

/-- C6: an integer field rejects every string that is not a base-10 integer
literal or whose value lies outside the range of the width of the field, and
then keeps its contents. For a signed field of `Bits` bits the range is
`-2 ^ (Bits - 1) .. 2 ^ (Bits - 1) - 1`, for an unsigned one
`0 .. 2 ^ Bits - 1`; the error is the syntax or range error of
`strconv.ParseInt` / `strconv.ParseUint` for the string. -/
theorem C6_integer_rejects_bad_literals (pf : FloatParser) (d : Data) (s : String) :
    (∀ k : IntKind,
        (intLiteral? s = none ∨
          ∃ v, intLiteral? s = some v ∧
            (v < -(2 ^ (k.Bits - 1) : Int) ∨ v > 2 ^ (k.Bits - 1) - 1)) →
        ∃ e, setFieldValue pf (GoType.int k) d s = (d, some e) ∧
          (e = syntaxError "ParseInt" s ∨ e = rangeError "ParseInt" s)) ∧
      (∀ k : UintKind,
        (intLiteral? s = none ∨
          ∃ v, intLiteral? s = some v ∧ (v < 0 ∨ v > 2 ^ k.Bits - 1)) →
        ∃ e, setFieldValue pf (GoType.uint k) d s = (d, some e) ∧
          (e = syntaxError "ParseUint" s ∨ e = rangeError "ParseUint" s)) := by
  constructor
  · intro k hbad
    obtain ⟨hb2, hb⟩ := IntKind_Bits_bounds k
    rcases hp : ParseInt s k.Bits with ⟨i, _ | e⟩
    · exfalso
      obtain ⟨hlit, h1, h2⟩ := (ParseInt_ok_iff s k.Bits hb2 hb i).mp hp
      rcases hbad with hnone | ⟨v, hv, hr⟩
      · rw [hnone] at hlit; simp at hlit
      · rw [hv] at hlit
        simp only [Option.some.injEq] at hlit
        subst hlit
        omega
    · refine ⟨e, ?_, ParseInt_err s k.Bits hb2 hb i e hp⟩
      simp only [setFieldValue, hp]
  · intro k hbad
    obtain ⟨hb2, hb⟩ := UintKind_Bits_bounds k
    rcases hp : ParseUint s k.Bits with ⟨n, _ | e⟩
    · exfalso
      obtain ⟨hlit, hle⟩ := (ParseUint_ok_iff s k.Bits (by omega) hb n).mp hp
      have hint := intLiteral_of_natLiteral s n hlit
      rcases hbad with hnone | ⟨v, hv, hr⟩
      · rw [hnone] at hint; simp at hint
      · rw [hv] at hint
        simp only [Option.some.injEq] at hint
        subst hint
        have hpos : 1 ≤ 2 ^ k.Bits := Nat.one_le_two_pow
        have hcast : ((2 : Int) ^ k.Bits) = ((2 ^ k.Bits : Nat) : Int) := by push_cast; rfl
        rw [hcast] at hr
        omega
    · refine ⟨e, ?_, ?_⟩
      · simp only [setFieldValue, hp]
      · rcases ParseUint_err s k.Bits (by omega) hb n e hp with h | h
        · exact Or.inl h.1
        · exact Or.inr h.1

/-- C6 at `"128"` for an `int8` field (above the range) and `"-1"` for a
`uint8` field (negative). -/
theorem C6_integer_rejects_bad_literals_witness :
    (∃ e, setFieldValue rejectFloats (GoType.int IntKind.Int8) (Data.int 5) "128" =
        (Data.int 5, some e) ∧
      (e = syntaxError "ParseInt" "128" ∨ e = rangeError "ParseInt" "128")) ∧
    (∃ e, setFieldValue rejectFloats (GoType.uint UintKind.Uint8) (Data.uint 5) "-1" =
        (Data.uint 5, some e) ∧
      (e = syntaxError "ParseUint" "-1" ∨ e = rangeError "ParseUint" "-1")) :=
  ⟨(C6_integer_rejects_bad_literals rejectFloats (Data.int 5) "128").1 IntKind.Int8
      (Or.inr ⟨128, by decide, Or.inr (by decide)⟩),
    (C6_integer_rejects_bad_literals rejectFloats (Data.uint 5) "-1").2 UintKind.Uint8
      (Or.inr ⟨-1, by decide, Or.inl (by decide)⟩)⟩

/-- C7, as stated, fails: `"tRUE"` equals `"true"` up to letter case, yet a
boolean field rejects it with the syntax error of `strconv.ParseBool` and
keeps its contents. -/
theorem C7_counterexample :
    EqualFold "tRUE" "true" ∧
      setFieldValue rejectFloats GoType.bool (Data.bool false) "tRUE" =
        (Data.bool false, some (syntaxError "ParseBool" "tRUE")) :=
  ⟨by decide, rfl⟩

/-- C7, amended: a boolean field stores `true` exactly for the strings `1`,
`t`, `T`, `TRUE`, `true`, `True`, stores `false` exactly for `0`, `f`, `F`,
`FALSE`, `false`, `False`, and on every other string (any other mix of letter
cases included) fails with the syntax error of `strconv.ParseBool` and keeps
its contents. -/
theorem C7_bool_vocabulary (pf : FloatParser) (d : Data) (s : String) :
    (setFieldValue pf GoType.bool d s = (Data.bool true, none) ↔
        s ∈ ["1", "t", "T", "TRUE", "true", "True"]) ∧
      (setFieldValue pf GoType.bool d s = (Data.bool false, none) ↔
        s ∈ ["0", "f", "F", "FALSE", "false", "False"]) ∧
      (s ∉ ["1", "t", "T", "TRUE", "true", "True"] →
        s ∉ ["0", "f", "F", "FALSE", "false", "False"] →
        setFieldValue pf GoType.bool d s = (d, some (syntaxError "ParseBool" s))) := by
  simp only [setFieldValue, ParseBool, List.mem_cons, List.mem_singleton, List.mem_nil_iff,
    or_false]
  by_cases h1 : s = "1" ∨ s = "t" ∨ s = "T" ∨ s = "TRUE" ∨ s = "true" ∨ s = "True"
  · simp only [h1, if_true, true_iff, not_true_eq_false, false_imp_iff, and_true, true_and]
    constructor
    · simp
    · intro h2
      exfalso
      rcases h1 with h | h | h | h | h | h <;> subst h <;> revert h2 <;> decide
  · by_cases h2 : s = "0" ∨ s = "f" ∨ s = "F" ∨ s = "FALSE" ∨ s = "false" ∨ s = "False"
    · simp [h1, h2]
    · simp [h1, h2]

/-- C7 at `"yes"`, which is outside the vocabulary, and at `"T"`. -/
theorem C7_bool_vocabulary_witness :
    setFieldValue rejectFloats GoType.bool (Data.bool true) "yes" =
        (Data.bool true, some (syntaxError "ParseBool" "yes")) ∧
      setFieldValue rejectFloats GoType.bool (Data.bool false) "T" = (Data.bool true, none) :=
  ⟨(C7_bool_vocabulary rejectFloats (Data.bool true) "yes").2.2 (by decide) (by decide),
    (C7_bool_vocabulary rejectFloats (Data.bool false) "T").1.mpr (by decide)⟩

/-- C8, as stated, fails: the error returned for a value that does not convert
is the `*strconv.NumError` of the parser, which names neither the key nor the
type of the field. The field `Port int` with `PORT=not-a-number` and the field
`Count int64` with `COUNT=not-a-number` fail with the very same error value;
and for a sequence field the string in the error is the failing segment, not
the value of the variable (`PORTS=1,x` fails with the error for `x`). -/
theorem C8_counterexample :
    (FillConfig (Env.ofList [("PORT", "not-a-number")]) rejectFloats
        (Cfg.ptrToStruct (portOnly (Data.int 0)))).2 =
      some (GoError.NumError "ParseInt" "not-a-number" StrconvErr.ErrSyntax) ∧
    (FillConfig (Env.ofList [("COUNT", "not-a-number")]) rejectFloats
        (Cfg.ptrToStruct (countOnly (Data.int 0)))).2 =
      some (GoError.NumError "ParseInt" "not-a-number" StrconvErr.ErrSyntax) ∧
    (FillConfig (Env.ofList [("PORTS", "1,x")]) rejectFloats
        (Cfg.ptrToStruct (portsOnly (Data.slice [])))).2 =
      some (GoError.NumError "ParseInt" "x" StrconvErr.ErrSyntax) :=
  ⟨rfl, rfl, rfl⟩

/-- C8, amended: when the non-empty environment value of a field denotes no
value of the type of the field and no field before it in depth-first order
fails, `FillConfig` returns the error of the conversion as it is. For a field
that is not a sequence this is the `*strconv.NumError` of the parser of the
type (`ParseInt`, `ParseUint`, `ParseBool`, `ParseFloat`) whose `Num` is the
value of the variable, or the error `unsupported field type: ` followed by the
kind of the type. For a sequence field it is the error of the first
comma-separated segment that does not convert (every segment before it
converts), with that segment as `Num`. The error does not depend on the key,
the name, the required tag or the contents of the field: every field of the
same type whose variable has the same value fails with the same error. -/
theorem C8_conversion_error_returned (env : Env) (pf : FloatParser) (v : Fields)
    (pre post : List Leaf) (a : Leaf) (hl : v.leaves = pre ++ a :: post)
    (hpre : ∀ x ∈ pre, (processField env pf x.f x.typ x.field).2 = none)
    (hne : Getenv env a.f.Tag.env ≠ "")
    (hconv : specCoerce pf a.typ (Getenv env a.f.Tag.env) = none) :
    ∃ e, (FillConfig env pf (Cfg.ptrToStruct v)).2 = some e ∧
      (a.typ.isSlice = false → ConversionError a.typ (Getenv env a.f.Tag.env) e) ∧
      (∀ elem, a.typ = GoType.slice elem →
        ∃ pre1 seg post1, Split (Getenv env a.f.Tag.env) ',' = pre1 ++ seg :: post1 ∧
          (∀ s ∈ pre1, specCoerce pf elem s ≠ none) ∧
          specCoerce pf elem seg = none ∧
          ConversionError a.typ seg e) ∧
      (∀ (env1 : Env) (f1 : StructField) (d1 : Data),
        Getenv env1 f1.Tag.env = Getenv env a.f.Tag.env →
        processField env1 pf f1 a.typ d1 = (d1, some e)) := by
  have hfail := (specCoerce_none_iff pf a.typ a.field (Getenv env a.f.Tag.env)).mp hconv
  rcases hr : setFieldValue pf a.typ a.field (Getenv env a.f.Tag.env) with ⟨d2, _ | e⟩
  · rw [hr] at hfail; exact absurd rfl hfail
  · obtain ⟨hscalar, hslice⟩ := setFieldValue_err_num pf a.typ a.field d2 _ e hr
    refine ⟨e, ?_, hscalar, ?_, ?_⟩
    · rw [FillConfig_ptrToStruct]
      simp only
      rw [(populateStruct_walk env pf v).2, hl]
      apply walk_first_error env pf pre a post e hpre
      rw [processField_present env pf a.f a.typ a.field hne, hr]
    · intro elem helem
      obtain ⟨pre1, seg, post1, hsplit, hpre1, hseg, hce⟩ := hslice elem helem
      refine ⟨pre1, seg, post1, hsplit, ?_, ?_, hce⟩
      · intro s hs hnone
        exact (specCoerce_none_iff pf elem (zero elem) s).mp hnone (hpre1 s hs)
      · apply (specCoerce_none_iff pf elem (zero elem) seg).mpr
        rw [hseg]; simp
    · intro env1 f1 d1 henv
      rw [processField_present env1 pf f1 a.typ d1 (by rw [henv]; exact hne), henv]
      exact setFieldValue_err_indep pf a.typ a.field d1 d2 _ e hr

/-- C8, the scenario of the specification: `Port int` with
`PORT=not-a-number` fails with the syntax error of `strconv.ParseInt` for
`not-a-number`. -/
theorem C8_conversion_error_returned_witness :
    (FillConfig (Env.ofList [("PORT", "not-a-number")]) rejectFloats
        (Cfg.ptrToStruct (portOnly (Data.int 0)))).2 =
      some (GoError.NumError "ParseInt" "not-a-number" StrconvErr.ErrSyntax) ∧
    specCoerce rejectFloats (GoType.int IntKind.Int)
        (Getenv (Env.ofList [("PORT", "not-a-number")]) "PORT") = none ∧
    ∃ e, (FillConfig (Env.ofList [("PORT", "not-a-number")]) rejectFloats
        (Cfg.ptrToStruct (portOnly (Data.int 0)))).2 = some e ∧
      ((GoType.int IntKind.Int).isSlice = false →
        ConversionError (GoType.int IntKind.Int)
          (Getenv (Env.ofList [("PORT", "not-a-number")]) "PORT") e) ∧
      (∀ elem, GoType.int IntKind.Int = GoType.slice elem →
        ∃ pre1 seg post1,
          Split (Getenv (Env.ofList [("PORT", "not-a-number")]) "PORT") ',' =
            pre1 ++ seg :: post1 ∧
          (∀ s ∈ pre1, specCoerce rejectFloats elem s ≠ none) ∧
          specCoerce rejectFloats elem seg = none ∧
          ConversionError (GoType.int IntKind.Int) seg e) ∧
      (∀ (env1 : Env) (f1 : StructField) (d1 : Data),
        Getenv env1 f1.Tag.env = Getenv (Env.ofList [("PORT", "not-a-number")]) "PORT" →
        processField env1 rejectFloats f1 (GoType.int IntKind.Int) d1 = (d1, some e)) :=
  ⟨rfl, rfl,
    C8_conversion_error_returned (Env.ofList [("PORT", "not-a-number")]) rejectFloats
      (portOnly (Data.int 0)) [] []
      ⟨⟨"Port", ⟨"PORT", ""⟩⟩, GoType.int IntKind.Int, Data.int 0⟩ rfl
      (fun x hx => (by cases hx)) (by decide) rfl⟩

/-- C9: a field that is a nested struct is handled by running `populateStruct`
on the nested struct, whatever the tag of the nesting field and whatever the
environment holds for its key. The nested struct ends as populating it on its
own leaves it, an error of the nested walk is returned as it is and stops the
walk, and otherwise the walk goes on with the fields after it; `FillConfig` on
a struct whose only field is the nested record returns what `FillConfig` on
the record itself returns. Neither the tag of the nesting field nor any
variable other than those of the non-struct fields matters: with another
nesting field `f1` and another environment `env1` that gives the non-struct
fields the same values, the error and the resulting fields are the same. -/
theorem C9_nested_record_populated (env env1 : Env) (pf : FloatParser) (f f1 : StructField)
    (fs rest : Fields)
    (hagree : ∀ l ∈ fs.leaves ++ rest.leaves,
      Getenv env1 l.f.Tag.env = Getenv env l.f.Tag.env) :
    populateStruct env pf (Fields.nested f fs rest) =
        (match populateStruct env pf fs with
          | (fs1, some err) => (Fields.nested f fs1 rest, some err)
          | (fs1, none) =>
            (Fields.nested f fs1 (populateStruct env pf rest).1,
              (populateStruct env pf rest).2)) ∧
      FillConfig env pf (Cfg.ptrToStruct (Fields.nested f fs Fields.nil)) =
        (Cfg.ptrToStruct (Fields.nested f (populateStruct env pf fs).1 Fields.nil),
          (populateStruct env pf fs).2) ∧
      FillConfig env pf (Cfg.ptrToStruct fs) =
        (Cfg.ptrToStruct (populateStruct env pf fs).1, (populateStruct env pf fs).2) ∧
      (populateStruct env1 pf (Fields.nested f1 fs rest)).2 =
        (populateStruct env pf (Fields.nested f fs rest)).2 ∧
      (populateStruct env1 pf (Fields.nested f1 fs rest)).1.leaves =
        (populateStruct env pf (Fields.nested f fs rest)).1.leaves := by
  have hnested : populateStruct env pf (Fields.nested f fs rest) =
      (match populateStruct env pf fs with
        | (fs1, some err) => (Fields.nested f fs1 rest, some err)
        | (fs1, none) =>
          (Fields.nested f fs1 (populateStruct env pf rest).1,
            (populateStruct env pf rest).2)) := by
    rw [populateStruct]
  have hsole : populateStruct env pf (Fields.nested f fs Fields.nil) =
      (Fields.nested f (populateStruct env pf fs).1 Fields.nil,
        (populateStruct env pf fs).2) := by
    rw [populateStruct]
    rcases populateStruct env pf fs with ⟨fs1, _ | e⟩ <;> rfl
  have hcongr : populateStruct env1 pf (Fields.nested f1 fs rest) =
      populateStruct env pf (Fields.nested f1 fs rest) :=
    populateStruct_env_congr env env1 pf _ (by simpa [Fields.leaves] using hagree)
  have hw1 := populateStruct_walk env pf (Fields.nested f1 fs rest)
  have hw := populateStruct_walk env pf (Fields.nested f fs rest)
  have hleaves : (Fields.nested f1 fs rest).leaves = (Fields.nested f fs rest).leaves := rfl
  refine ⟨hnested, ?_, rfl, ?_, ?_⟩
  · rw [FillConfig_ptrToStruct, hsole]
  · rw [hcongr, hw1.2, hw.2, hleaves]
  · rw [hcongr, hw1.1, hw.1, hleaves]

/-- C9, the scenario of the specification: with `X=5` the nested record
`Inner{X int "X"}` ends with `X = 5`, although the nesting field is tagged
`env:"INNER" required:"true"` and `INNER` is not set; and setting `INNER`
changes nothing. -/
theorem C9_nested_record_populated_witness :
    FillConfig (Env.ofList [("X", "5")]) rejectFloats (Cfg.ptrToStruct (withInner (Data.int 0))) =
      (Cfg.ptrToStruct (withInner (Data.int 5)), none) ∧
    (populateStruct (Env.ofList [("X", "5"), ("INNER", "on")]) rejectFloats
        (Fields.nested ⟨"Inner", ⟨"", ""⟩⟩
          (Fields.leaf ⟨"X", ⟨"X", ""⟩⟩ (GoType.int IntKind.Int) rfl (Data.int 0) Fields.nil)
          Fields.nil)).2 =
      (populateStruct (Env.ofList [("X", "5")]) rejectFloats (withInner (Data.int 0))).2 :=
  ⟨rfl,
    (C9_nested_record_populated (Env.ofList [("X", "5")])
      (Env.ofList [("X", "5"), ("INNER", "on")]) rejectFloats ⟨"Inner", ⟨"INNER", "true"⟩⟩
      ⟨"Inner", ⟨"", ""⟩⟩
      (Fields.leaf ⟨"X", ⟨"X", ""⟩⟩ (GoType.int IntKind.Int) rfl (Data.int 0) Fields.nil)
      Fields.nil
      (by
        intro l hl
        simp only [Fields.leaves, List.append_nil, List.mem_singleton] at hl
        subst hl
        rfl)).2.2.2.1⟩

/-- C10: when `FillConfig` returns an error, the non-struct fields of the
struct it leaves split, in depth-first order, into the fields before the
failing one, the failing field and the fields after it: each field before
holds what the walk assigns (the converted environment value if that is
non-empty, its previous contents otherwise), the failing field, whose
iteration returns the error, and all fields after it hold their previous
contents. -/
theorem C10_no_rollback_stops_at_failure (env : Env) (pf : FloatParser) (v v1 : Fields)
    (e : GoError) (h : FillConfig env pf (Cfg.ptrToStruct v) = (Cfg.ptrToStruct v1, some e)) :
    ∃ pre a post pre1, v.leaves = pre ++ a :: post ∧ v1.leaves = pre1 ++ a :: post ∧
      processField env pf a.f a.typ a.field = (a.field, some e) ∧
      List.Forall₂
        (fun x y => y.f = x.f ∧ y.typ = x.typ ∧
          (Getenv env x.f.Tag.env = "" → y.field = x.field) ∧
          (Getenv env x.f.Tag.env ≠ "" →
            setFieldValue pf x.typ x.field (Getenv env x.f.Tag.env) = (y.field, none)))
        pre pre1 := by
  rw [FillConfig_ptrToStruct] at h
  simp only [Prod.mk.injEq, Cfg.ptrToStruct.injEq] at h
  obtain ⟨hl, he⟩ := populateStruct_walk env pf v
  rw [h.1] at hl
  rw [h.2] at he
  have hw : walk env pf v.leaves = (v1.leaves, some e) := by rw [hl, he]
  obtain ⟨pre, a, post, pre1, h1, h2, hf, ha⟩ := walk_err env pf _ _ _ hw
  refine ⟨pre, a, post, pre1, h1, h2, ha, List.Forall₂.imp ?_ hf⟩
  rintro x y ⟨hxf, hxt, hp⟩
  refine ⟨hxf, hxt, ?_, ?_⟩
  · intro habs
    rcases processField_ok_cases env pf _ _ _ _ hp with ⟨_, hd⟩ | ⟨hne, _⟩
    · exact hd
    · exact absurd habs hne
  · intro hne
    rcases processField_ok_cases env pf _ _ _ _ hp with ⟨habs, _⟩ | ⟨_, hset⟩
    · exact absurd habs hne
    · exact hset

/-- C10 on the shape `Name`/`Port`/`Tags` with `NAME=svc`, `PORT=x` and
`TAGS=a,b`: the call fails at `Port`; `Name` is assigned, `Port` and `Tags`
are as before. -/
theorem C10_no_rollback_stops_at_failure_witness :
    FillConfig (Env.ofList [("NAME", "svc"), ("PORT", "x"), ("TAGS", "a,b")]) rejectFloats
        (Cfg.ptrToStruct (nameportTags (Data.string "") (Data.int 7) (Data.slice []))) =
      (Cfg.ptrToStruct (nameportTags (Data.string "svc") (Data.int 7) (Data.slice [])),
        some (GoError.NumError "ParseInt" "x" StrconvErr.ErrSyntax)) ∧
    ∃ pre a post pre1,
      (nameportTags (Data.string "") (Data.int 7) (Data.slice [])).leaves = pre ++ a :: post ∧
      (nameportTags (Data.string "svc") (Data.int 7) (Data.slice [])).leaves =
        pre1 ++ a :: post ∧
      processField (Env.ofList [("NAME", "svc"), ("PORT", "x"), ("TAGS", "a,b")]) rejectFloats
          a.f a.typ a.field =
        (a.field, some (GoError.NumError "ParseInt" "x" StrconvErr.ErrSyntax)) ∧
      List.Forall₂
        (fun x y => y.f = x.f ∧ y.typ = x.typ ∧
          (Getenv (Env.ofList [("NAME", "svc"), ("PORT", "x"), ("TAGS", "a,b")]) x.f.Tag.env =
            "" → y.field = x.field) ∧
          (Getenv (Env.ofList [("NAME", "svc"), ("PORT", "x"), ("TAGS", "a,b")]) x.f.Tag.env ≠
            "" →
            setFieldValue rejectFloats x.typ x.field
              (Getenv (Env.ofList [("NAME", "svc"), ("PORT", "x"), ("TAGS", "a,b")])
                x.f.Tag.env) = (y.field, none)))
        pre pre1 :=
  ⟨rfl, C10_no_rollback_stops_at_failure _ _ _ _ _ rfl⟩

/-- C11: `FillConfig` returns the error of the first field that fails, in
depth-first declaration order, and no other. If a field fails with `e` and no
field before it fails, the returned error is `e`, whatever the fields after it
would do; every error returned for a pointer to a struct arises this way; and
the call succeeds exactly when no field fails. -/
theorem C11_first_error_returned (env : Env) (pf : FloatParser) (v : Fields) :
    (∀ (pre post : List Leaf) (a : Leaf) (e : GoError), v.leaves = pre ++ a :: post →
        (∀ x ∈ pre, (processField env pf x.f x.typ x.field).2 = none) →
        (processField env pf a.f a.typ a.field).2 = some e →
        (FillConfig env pf (Cfg.ptrToStruct v)).2 = some e) ∧
      (∀ e, (FillConfig env pf (Cfg.ptrToStruct v)).2 = some e →
        ∃ pre a post, v.leaves = pre ++ a :: post ∧
          (∀ x ∈ pre, (processField env pf x.f x.typ x.field).2 = none) ∧
          (processField env pf a.f a.typ a.field).2 = some e) ∧
      ((FillConfig env pf (Cfg.ptrToStruct v)).2 = none ↔
        ∀ x ∈ v.leaves, (processField env pf x.f x.typ x.field).2 = none) := by
  rw [FillConfig_ptrToStruct]
  simp only
  rw [(populateStruct_walk env pf v).2]
  refine ⟨?_, ?_, walk_none_iff env pf v.leaves⟩
  · intro pre post a e hl hpre ha
    rw [hl]
    exact walk_first_error env pf pre a post e hpre ha
  · intro e he
    rcases hw : walk env pf v.leaves with ⟨ls1, r⟩
    rw [hw] at he
    simp only at he
    subst he
    obtain ⟨pre, a, post, pre1, h1, _, hf, ha⟩ := walk_err env pf _ _ _ hw
    refine ⟨pre, a, post, h1, ?_, by rw [ha]⟩
    intro x hx
    obtain ⟨y, _, _, _, hp⟩ := forall₂_mem_left _ _ _ hf x hx
    rw [hp]

/-- C11 on the shape `Name`/`Port`/`Tags` with only `PORT=x` set: the required
`Name` is missing and `Port` does not parse; the error returned is the one of
`Name`, the first of the two. -/
theorem C11_first_error_returned_witness :
    (processField (Env.ofList [("PORT", "x")]) rejectFloats ⟨"Port", ⟨"PORT", ""⟩⟩
        (GoType.int IntKind.Int) (Data.int 0)).2 =
      some (GoError.NumError "ParseInt" "x" StrconvErr.ErrSyntax) ∧
    (FillConfig (Env.ofList [("PORT", "x")]) rejectFloats
        (Cfg.ptrToStruct (nameportTags (Data.string "") (Data.int 0) (Data.slice [])))).2 =
      some (errorsNew ("missing required environment variable: " ++ "NAME")) :=
  ⟨rfl,
    (C11_first_error_returned (Env.ofList [("PORT", "x")]) rejectFloats
      (nameportTags (Data.string "") (Data.int 0) (Data.slice []))).1 []
      [⟨⟨"Port", ⟨"PORT", ""⟩⟩, GoType.int IntKind.Int, Data.int 0⟩,
       ⟨⟨"Tags", ⟨"TAGS", ""⟩⟩, GoType.slice GoType.string, Data.slice []⟩]
      ⟨⟨"Name", ⟨"NAME", "true"⟩⟩, GoType.string, Data.string ""⟩ _ rfl
      (by intro x hx; cases hx) rfl⟩

/-- C12, as stated, fails for a field that is a nested record: in the shape
whose only field is `Inner{X int "X"}`, tagged `env:"INNER" required:"true"`,
the call with `X=5` and `INNER` not set succeeds, although the field `Inner` is
annotated required and its key has no environment entry; and the value of
`Inner` changes (`X` goes from 0 to 5) although no entry matches its key. -/
theorem C12_counterexample :
    withInner (Data.int 0) =
        Fields.nested ⟨"Inner", ⟨"INNER", "true"⟩⟩
          (Fields.leaf ⟨"X", ⟨"X", ""⟩⟩ (GoType.int IntKind.Int) rfl (Data.int 0) Fields.nil)
          Fields.nil ∧
      (Env.ofList [("X", "5")]) "INNER" = none ∧
      FillConfig (Env.ofList [("X", "5")]) rejectFloats
          (Cfg.ptrToStruct (withInner (Data.int 0))) =
        (Cfg.ptrToStruct
          (Fields.nested ⟨"Inner", ⟨"INNER", "true"⟩⟩
            (Fields.leaf ⟨"X", ⟨"X", ""⟩⟩ (GoType.int IntKind.Int) rfl (Data.int 5) Fields.nil)
            Fields.nil), none) :=
  ⟨rfl, rfl, rfl⟩

/-- C12, amended to the fields that are not records: after a successful
`FillConfig`, every non-struct field tagged `required:"true"` has a key with a
present, non-empty environment value and holds the conversion of that value
(a string field then holds that non-empty string, a sequence field a sequence
with at least one element); and every non-struct field whose key has no
environment entry holds its previous contents. -/
theorem C12_required_fields_set (env : Env) (pf : FloatParser) (v v1 : Fields)
    (h : FillConfig env pf (Cfg.ptrToStruct v) = (Cfg.ptrToStruct v1, none)) :
    List.Forall₂
      (fun a b => b.f = a.f ∧ b.typ = a.typ ∧
        (a.f.Tag.required = "true" →
          a.f.Tag.env ≠ "" ∧ ∃ raw, env a.f.Tag.env = some raw ∧ raw ≠ "" ∧
            setFieldValue pf a.typ a.field raw = (b.field, none) ∧
            (a.typ = GoType.string → b.field = Data.string raw) ∧
            (∀ elem, a.typ = GoType.slice elem → ∃ xs, b.field = Data.slice xs ∧ xs ≠ [])) ∧
        (env a.f.Tag.env = none → b.field = a.field))
      v.leaves v1.leaves := by
  rw [FillConfig_ptrToStruct] at h
  simp only [Prod.mk.injEq, Cfg.ptrToStruct.injEq] at h
  obtain ⟨hl, he⟩ := populateStruct_walk env pf v
  rw [h.1] at hl
  rw [h.2] at he
  have hw : walk env pf v.leaves = (v1.leaves, none) := by rw [hl, he]
  refine List.Forall₂.imp ?_ (walk_ok env pf _ _ hw)
  rintro a b ⟨hf, ht, hp⟩
  refine ⟨hf, ht, ?_, ?_⟩
  · intro hreq
    rcases processField_ok_cases env pf _ _ _ _ hp with ⟨habs, _⟩ | ⟨hne, hset⟩
    · rw [processField_missing env pf a.f a.typ a.field hreq habs] at hp
      simp at hp
    · obtain ⟨hk, henv⟩ := Getenv_ne_empty env _ hne
      refine ⟨hk, Getenv env a.f.Tag.env, henv, hne, hset, ?_, ?_⟩
      · intro hs
        rw [hs] at hset
        simp only [setFieldValue, Prod.mk.injEq, and_true] at hset
        exact hset.symm
      · intro elem hs
        rw [hs] at hset
        obtain ⟨xs, hxs, hlen, _⟩ := setFieldValue_slice_ok pf elem _ _ _ hset
        refine ⟨xs, hxs, ?_⟩
        intro hnil
        rw [hnil] at hlen
        exact Split_ne_nil _ ',' (List.length_eq_zero.mp hlen.symm)
  · intro hnone
    rcases processField_ok_cases env pf _ _ _ _ hp with ⟨_, hd⟩ | ⟨hne, _⟩
    · exact hd
    · exact absurd (Getenv_of_none env _ hnone) hne

/-- C12 on the shape `Name`/`Port`/`Tags` with `NAME=svc` and `TAGS=a,b,c`:
the required `Name` ends as `"svc"` and `Port`, which has no entry, stays 0. -/
theorem C12_required_fields_set_witness :
    FillConfig (Env.ofList [("NAME", "svc"), ("TAGS", "a,b,c")]) rejectFloats
        (Cfg.ptrToStruct (nameportTags (Data.string "") (Data.int 0) (Data.slice []))) =
      (Cfg.ptrToStruct (nameportTags (Data.string "svc") (Data.int 0)
        (Data.slice [Data.string "a", Data.string "b", Data.string "c"])), none) ∧
    List.Forall₂
      (fun a b => b.f = a.f ∧ b.typ = a.typ ∧
        (a.f.Tag.required = "true" →
          a.f.Tag.env ≠ "" ∧
            ∃ raw, (Env.ofList [("NAME", "svc"), ("TAGS", "a,b,c")]) a.f.Tag.env = some raw ∧
              raw ≠ "" ∧
              setFieldValue rejectFloats a.typ a.field raw = (b.field, none) ∧
              (a.typ = GoType.string → b.field = Data.string raw) ∧
              (∀ elem, a.typ = GoType.slice elem →
                ∃ xs, b.field = Data.slice xs ∧ xs ≠ [])) ∧
        ((Env.ofList [("NAME", "svc"), ("TAGS", "a,b,c")]) a.f.Tag.env = none →
          b.field = a.field))
      (nameportTags (Data.string "") (Data.int 0) (Data.slice [])).leaves
      (nameportTags (Data.string "svc") (Data.int 0)
        (Data.slice [Data.string "a", Data.string "b", Data.string "c"])).leaves :=
  ⟨rfl, C12_required_fields_set _ _ _ _ rfl⟩

/-- C13: for an argument that is not a non-nil pointer to a struct (the nil
interface, a struct or another value passed by value, a nil pointer, a pointer
to something that is not a struct) `FillConfig` returns the error
`cfg must be a pointer to a struct`, leaves the argument as it is and returns
the same for every environment; for a non-nil pointer to a struct it never
returns that error. -/
theorem C13_invalid_target (env env1 : Env) (pf : FloatParser) :
    (∀ cfg : Cfg, (∀ v, cfg ≠ Cfg.ptrToStruct v) →
        FillConfig env pf cfg = (cfg, some (errorsNew "cfg must be a pointer to a struct")) ∧
        FillConfig env1 pf cfg = FillConfig env pf cfg) ∧
      (∀ v : Fields, (FillConfig env pf (Cfg.ptrToStruct v)).2 ≠
        some (errorsNew "cfg must be a pointer to a struct")) := by
  constructor
  · intro cfg hcfg
    cases cfg with
    | ptrToStruct v => exact absurd rfl (hcfg v)
    | untypedNil => exact ⟨rfl, rfl⟩
    | structValue v => exact ⟨rfl, rfl⟩
    | otherValue typ d => exact ⟨rfl, rfl⟩
    | nilPtr => exact ⟨rfl, rfl⟩
    | ptrToOther typ d => exact ⟨rfl, rfl⟩
  · intro v hv
    rw [FillConfig_ptrToStruct] at hv
    obtain ⟨pre, a, post, _, _, ha⟩ := populateStruct_err_field env pf v _ hv
    exact processField_err_ne_invalid env pf a.f a.typ a.field _ ha rfl

/-- C13 at a struct passed by value and at a nil pointer. -/
theorem C13_invalid_target_witness :
    FillConfig (Env.ofList [("X", "5")]) rejectFloats (Cfg.structValue (withInner (Data.int 0))) =
        (Cfg.structValue (withInner (Data.int 0)),
          some (errorsNew "cfg must be a pointer to a struct")) ∧
      FillConfig (Env.ofList []) rejectFloats Cfg.nilPtr =
        FillConfig (Env.ofList [("X", "5")]) rejectFloats Cfg.nilPtr :=
  ⟨((C13_invalid_target (Env.ofList [("X", "5")]) (Env.ofList []) rejectFloats).1
      (Cfg.structValue (withInner (Data.int 0))) (by intro v hv; cases hv)).1,
    ((C13_invalid_target (Env.ofList [("X", "5")]) (Env.ofList []) rejectFloats).1
      Cfg.nilPtr (by intro v hv; cases hv)).2⟩

/-- C14, as stated, fails for a sequence of sequences: `[][]int` is not one of
string, integer, boolean, float or a sequence of one of these, yet a field of
that type is converted without error; `1,2` becomes `[[1], [2]]`. -/
theorem C14_counterexample :
    setFieldValue rejectFloats (GoType.slice (GoType.slice (GoType.int IntKind.Int)))
        (Data.slice []) "1,2" =
      (Data.slice [Data.slice [Data.int 1], Data.slice [Data.int 2]], none) ∧
    FillConfig (Env.ofList [("GRID", "1,2")]) rejectFloats
        (Cfg.ptrToStruct (gridOnly (Data.slice []))) =
      (Cfg.ptrToStruct (gridOnly (Data.slice [Data.slice [Data.int 1], Data.slice [Data.int 2]])),
        none) :=
  ⟨rfl, rfl⟩

/-- C14, amended: converting any string into a field whose type no `case` of
`setFieldValue` handles (its kind is none of string, the integer kinds but
`uintptr`, bool, the float kinds and slice), or into a slice, nested to any
depth, whose innermost element type is such a type, fails with the error
`unsupported field type: ` followed by the name of the kind of that type, and
the field keeps its contents. Slices of slices of handled types are
handled. -/
theorem C14_unsupported_type_rejected (pf : FloatParser) (typ : GoType) (d : Data)
    (raw kind : String) (h : typ.unsupportedKind = some kind) :
    setFieldValue pf typ d raw = (d, some (errorsNew ("unsupported field type: " ++ kind))) := by
  induction typ generalizing d raw with
  | string => simp [GoType.unsupportedKind] at h
  | int k => simp [GoType.unsupportedKind] at h
  | uint k => simp [GoType.unsupportedKind] at h
  | bool => simp [GoType.unsupportedKind] at h
  | float k => simp [GoType.unsupportedKind] at h
  | slice elem ih =>
    simp only [GoType.unsupportedKind] at h
    simp only [setFieldValue]
    rcases hs : Split raw ',' with _ | ⟨seg, segs⟩
    · exact absurd hs (Split_ne_nil raw ',')
    · simp only [List.length_cons, List.replicate_succ, setElems, ih (zero elem) seg h]
  | struct =>
    simp only [GoType.unsupportedKind, Option.some.injEq] at h
    subst h
    rfl
  | other k =>
    simp only [GoType.unsupportedKind, Option.some.injEq] at h
    subst h
    rfl

/-- C14 at a map field and at a slice of structs. -/
theorem C14_unsupported_type_rejected_witness :
    setFieldValue rejectFloats (GoType.other OtherKind.Map) (Data.other 3) "a=b" =
        (Data.other 3, some (errorsNew ("unsupported field type: " ++ "map"))) ∧
      setFieldValue rejectFloats (GoType.slice GoType.struct) (Data.slice [Data.other 1]) "" =
        (Data.slice [Data.other 1], some (errorsNew ("unsupported field type: " ++ "struct"))) :=
  ⟨C14_unsupported_type_rejected rejectFloats (GoType.other OtherKind.Map) (Data.other 3)
      "a=b" "map" rfl,
    C14_unsupported_type_rejected rejectFloats (GoType.slice GoType.struct)
      (Data.slice [Data.other 1]) "" "struct" rfl⟩

/-- C15: an empty value counts as no value, for every argument of `FillConfig`
and so for every field type: setting a variable that is not set to the empty
string, or removing a variable whose value is the empty string, changes
neither the returned error nor the resulting instance. -/
theorem C15_empty_value_is_absent (env : Env) (pf : FloatParser) (key : String) (cfg : Cfg) :
    (env key = none → FillConfig (env.set key (some "")) pf cfg = FillConfig env pf cfg) ∧
      (env key = some "" → FillConfig (env.set key none) pf cfg = FillConfig env pf cfg) := by
  constructor
  · intro h
    apply FillConfig_env_congr
    intro k
    unfold Getenv Env.set
    by_cases hk : k = key
    · subst hk; simp [h]
    · simp [hk]
  · intro h
    apply FillConfig_env_congr
    intro k
    unfold Getenv Env.set
    by_cases hk : k = key
    · subst hk; simp [h]
    · simp [hk]

/-- C15 on the shape `Name`/`Port`/`Tags`: with `NAME=svc`, setting `PORT` to
the empty string gives the outcome of leaving it unset. -/
theorem C15_empty_value_is_absent_witness :
    (Env.ofList [("NAME", "svc")]) "PORT" = none ∧
      FillConfig ((Env.ofList [("NAME", "svc")]).set "PORT" (some "")) rejectFloats
          (Cfg.ptrToStruct (nameportTags (Data.string "") (Data.int 7) (Data.slice []))) =
        FillConfig (Env.ofList [("NAME", "svc")]) rejectFloats
          (Cfg.ptrToStruct (nameportTags (Data.string "") (Data.int 7) (Data.slice []))) :=
  ⟨rfl,
    (C15_empty_value_is_absent (Env.ofList [("NAME", "svc")]) rejectFloats "PORT"
      (Cfg.ptrToStruct (nameportTags (Data.string "") (Data.int 7) (Data.slice [])))).1 rfl⟩

/-- C16: the conversion of a sequence field is all or nothing. When it fails
on a segment the field holds its previous contents and nothing of the segments
converted before; when it succeeds the field holds exactly one element per
segment, the conversions of the segments in order, whatever it held before.
With `1,2,x` a `[]int` field holding `[7, 8]` still holds `[7, 8]`; with `1,2`
it holds `[1, 2]`. -/
theorem C16_sequence_all_or_nothing (pf : FloatParser) (elem : GoType) (d : Data)
    (raw : String) :
    (∀ d1 e, setFieldValue pf (GoType.slice elem) d raw = (d1, some e) → d1 = d) ∧
      (∀ v, setFieldValue pf (GoType.slice elem) d raw = (v, none) →
        (∃ xs, v = Data.slice xs ∧ xs.length = (Split raw ',').length ∧
          List.Forall₂ (fun seg x => setFieldValue pf elem (zero elem) seg = (x, none))
            (Split raw ',') xs) ∧
        ∀ d0, setFieldValue pf (GoType.slice elem) d0 raw = (v, none)) ∧
      setFieldValue pf (GoType.slice (GoType.int IntKind.Int))
          (Data.slice [Data.int 7, Data.int 8]) "1,2,x" =
        (Data.slice [Data.int 7, Data.int 8],
          some (GoError.NumError "ParseInt" "x" StrconvErr.ErrSyntax)) ∧
      setFieldValue pf (GoType.slice (GoType.int IntKind.Int))
          (Data.slice [Data.int 7, Data.int 8]) "1,2" =
        (Data.slice [Data.int 1, Data.int 2], none) ∧
      FillConfig (Env.ofList [("PORTS", "1,2,x")]) pf
          (Cfg.ptrToStruct (portsOnly (Data.slice [Data.int 7, Data.int 8]))) =
        (Cfg.ptrToStruct (portsOnly (Data.slice [Data.int 7, Data.int 8])),
          some (GoError.NumError "ParseInt" "x" StrconvErr.ErrSyntax)) := by
  refine ⟨?_, ?_, rfl, rfl, rfl⟩
  · intro d1 e h
    exact setFieldValue_err_unchanged pf _ d d1 raw e h
  · intro v h
    exact ⟨setFieldValue_slice_ok pf elem d v raw h,
      fun d0 => setFieldValue_ok_indep pf _ d d0 v raw h⟩

/-- C16 at a `[]uint8` field holding `[9]` and the value `1,300`: the second
segment is out of range and the field still holds `[9]`. -/
theorem C16_sequence_all_or_nothing_witness :
    setFieldValue rejectFloats (GoType.slice (GoType.uint UintKind.Uint8))
        (Data.slice [Data.uint 9]) "1,300" =
      (Data.slice [Data.uint 9], some (GoError.NumError "ParseUint" "300" StrconvErr.ErrRange)) ∧
    Data.slice [Data.uint 9] = Data.slice [Data.uint 9] :=
  ⟨rfl,
    (C16_sequence_all_or_nothing rejectFloats (GoType.uint UintKind.Uint8)
      (Data.slice [Data.uint 9]) "1,300").1 (Data.slice [Data.uint 9])
      (GoError.NumError "ParseUint" "300" StrconvErr.ErrRange) rfl⟩

/-- C17: empty segments of a sequence value are converted like any other
segment. A value with a leading, a trailing or a doubled comma has an empty
segment; a `[]string` field receives every segment, the empty ones as empty
strings, while a sequence field of an integer, boolean or floating-point type
fails and keeps its contents, because the conversion of the empty string to
such a type fails (for floats: as `strconv.ParseFloat` rejects the empty
string, which is the assumption on the parser). -/
theorem C17_empty_segments_converted (pf : FloatParser) (d : Data) (raw : String)
    (hraw : (∃ r, raw.data = ',' :: r) ∨ (∃ a, raw.data = a ++ [',']) ∨
      ∃ a b, raw.data = a ++ ',' :: ',' :: b)
    (hpf : ∀ bits, (pf "" bits).2 ≠ none) :
    "" ∈ Split raw ',' ∧
      setFieldValue pf (GoType.slice GoType.string) d raw =
        (Data.slice ((Split raw ',').map Data.string), none) ∧
      (∀ k, ∃ e, setFieldValue pf (GoType.slice (GoType.int k)) d raw = (d, some e)) ∧
      (∀ k, ∃ e, setFieldValue pf (GoType.slice (GoType.uint k)) d raw = (d, some e)) ∧
      (∃ e, setFieldValue pf (GoType.slice GoType.bool) d raw = (d, some e)) ∧
      (∀ k, ∃ e, setFieldValue pf (GoType.slice (GoType.float k)) d raw = (d, some e)) := by
  have hmem := Split_mem_empty raw hraw
  refine ⟨hmem, setFieldValue_string_slice pf d raw, ?_, ?_, ?_, ?_⟩
  · intro k
    exact setFieldValue_slice_fails pf _ d raw ⟨"", hmem, by simp [setFieldValue, ParseInt]⟩
  · intro k
    exact setFieldValue_slice_fails pf _ d raw ⟨"", hmem, by simp [setFieldValue, ParseUint]⟩
  · exact setFieldValue_slice_fails pf _ d raw ⟨"", hmem, by simp [setFieldValue, ParseBool]⟩
  · intro k
    refine setFieldValue_slice_fails pf _ d raw ⟨"", hmem, ?_⟩
    have h := hpf k.Bits
    simp only [setFieldValue, ParseFloat]
    rcases hp : pf "" k.Bits with ⟨x, _ | e⟩
    · rw [hp] at h; exact absurd rfl h
    · simp

/-- C17 at the value `,a,`: a `[]string` field receives `["", "a", ""]` and a
`[]int` field fails. -/
theorem C17_empty_segments_converted_witness :
    (∃ r, (",a," : String).data = ',' :: r) ∧
    (∀ bits, (rejectFloats "" bits).2 ≠ none) ∧
    setFieldValue rejectFloats (GoType.slice GoType.string) (Data.slice []) ",a," =
      (Data.slice [Data.string "", Data.string "a", Data.string ""], none) ∧
    ∃ e, setFieldValue rejectFloats (GoType.slice (GoType.int IntKind.Int)) (Data.slice [])
      ",a," = (Data.slice [], some e) :=
  ⟨⟨_, rfl⟩, fun _ => by simp [rejectFloats],
    (C17_empty_segments_converted rejectFloats (Data.slice []) ",a," (Or.inl ⟨_, rfl⟩)
      (fun _ => by simp [rejectFloats])).2.1,
    (C17_empty_segments_converted rejectFloats (Data.slice []) ",a," (Or.inl ⟨_, rfl⟩)
      (fun _ => by simp [rejectFloats])).2.2.1 IntKind.Int⟩

/-- C18: `FillConfig` is idempotent for a fixed environment: called on the
argument as a first call left it, it returns the same error (or none again)
and leaves the same instance. -/
theorem C18_idempotent (env : Env) (pf : FloatParser) (cfg : Cfg) :
    FillConfig env pf (FillConfig env pf cfg).1 = FillConfig env pf cfg := by
  cases cfg with
  | ptrToStruct v =>
    rw [FillConfig_ptrToStruct]
    simp only
    rw [FillConfig_ptrToStruct, populateStruct_idem]
  | untypedNil => rfl
  | structValue v => rfl
  | otherValue typ d => rfl
  | nilPtr => rfl
  | ptrToOther typ d => rfl

/-- C19: the outcome of `FillConfig` on a pointer to a struct depends on the
environment only through the keys of the non-struct fields: two environments
that agree on the key of every such field give the same error and the same
resulting instance. -/
theorem C19_env_only_through_field_keys (env env1 : Env) (pf : FloatParser) (v : Fields)
    (h : ∀ l ∈ v.leaves, env1 l.f.Tag.env = env l.f.Tag.env) :
    FillConfig env1 pf (Cfg.ptrToStruct v) = FillConfig env pf (Cfg.ptrToStruct v) := by
  rw [FillConfig_ptrToStruct, FillConfig_ptrToStruct]
  have hg : ∀ l ∈ v.leaves, Getenv env1 l.f.Tag.env = Getenv env l.f.Tag.env := by
    intro l hl
    unfold Getenv
    rw [h l hl]
  rw [populateStruct_env_congr env env1 pf v hg]

/-- C19 on the shape `{Port int "PORT"}`: an environment that also sets `HOME`
and `NAME` gives the outcome of the one that sets `PORT` alone. -/
theorem C19_env_only_through_field_keys_witness :
    (∀ l ∈ (portOnly (Data.int 0)).leaves,
        (Env.ofList [("HOME", "/root"), ("PORT", "80"), ("NAME", "x")]) l.f.Tag.env =
          (Env.ofList [("PORT", "80")]) l.f.Tag.env) ∧
      FillConfig (Env.ofList [("HOME", "/root"), ("PORT", "80"), ("NAME", "x")]) rejectFloats
          (Cfg.ptrToStruct (portOnly (Data.int 0))) =
        FillConfig (Env.ofList [("PORT", "80")]) rejectFloats
          (Cfg.ptrToStruct (portOnly (Data.int 0))) :=
  ⟨by
      intro l hl
      simp only [portOnly, Fields.leaves, List.mem_singleton] at hl
      subst hl
      rfl,
    C19_env_only_through_field_keys (Env.ofList [("PORT", "80")])
      (Env.ofList [("HOME", "/root"), ("PORT", "80"), ("NAME", "x")]) rejectFloats
      (portOnly (Data.int 0))
      (by
        intro l hl
        simp only [portOnly, Fields.leaves, List.mem_singleton] at hl
        subst hl
        rfl)⟩

end Goeasyconf
